import Mathlib

/-!
# MagicalContainer: a container of unique integers with three traversal orders

Shallow embedding of `sources/MagicalContainer.cpp` and `sources/MagicalContainer.hpp`.

Representation choices.

* `std::set<int>` is represented by the list of its keys in iteration order
  (strictly ascending).  `set_insert`, membership and `List.erase` play the
  roles of `insert`, `find` and `erase`.
* The three vectors hold `const int*` pointers to nodes of the set.  A node of a
  `std::set` never moves and its key is immutable, and a set holds one node per
  key, so a pointer to a live node is represented by the key it points to:
  pointer equality (`std::find` on addresses) is key equality and `*p` is the
  key itself.
* `int` is a mathematical integer restricted to the 32-bit range where that
  matters (`isPrime`); `size_t` is a natural number, with the one subtraction
  that can wrap (`size() - 1`) written out.
* A member function returns the state of its receiver after the call together
  with the exception it threw, if any, so that what a failing call leaves behind
  can be stated.
* Containers live at addresses; a cursor stores the address of the container it
  is bound to (the C++ reference member) and an offset.
-/

namespace ariel

/-! ## Exceptions -/

/-- What a call can end with other than a normal return: one of the two
exception classes the program throws, with its `what()` text, or undefined
behaviour of the standard library (`front()` of an empty vector). -/
inductive Fault where
  | runtime_error (what : String)
  | out_of_range (what : String)
  | undefined
  deriving DecidableEq

/-- Text thrown by `removeElement` for an absent value. -/
def what_not_found : String := "Error: element not found"

/-- Text thrown when two cursors of different containers meet. -/
def what_not_same : String := "Iterators are not from the same container"

/-- Text thrown by `operator*` and `operator++` past the end of a view. -/
def what_range : String := "Iterator out of range"

/-- Text of the exception of `std::vector::at` (library defined). -/
def what_vector_at : String := "vector::_M_range_check"

/-! ## isPrime -/

/-- Two's-complement reduction of an integer to the range of a 32-bit `int`. -/
def wrapInt (x : Int) : Int := (x + 2147483648) % 4294967296 - 2147483648

/-- The `for` loop of `isPrime`, started at `i`.  The guard `i <= sqrt(num)`
compares an `int` with a correctly rounded `double` square root of a value below
`2^31`, which holds exactly when `i * i <= num`.  The first argument bounds the
number of iterations. -/
def isPrimeLoop (num : Int) : Nat → Int → Bool
  | 0, _ => true
  | fuel + 1, i =>
    if i * i ≤ num then
      if num.tmod i = 0 then false
      else isPrimeLoop num fuel (i + 1)
    else true

/-- Translation of `MagicalContainer::isPrime(int num)`. -/
def isPrime (num : Int) : Bool :=
  let num := if num < 0 then wrapInt (-num) else num
  if num ≤ 1 then false
  else isPrimeLoop num num.toNat 2

/-! ## Standard-library operations used by the container -/

/-- Result of `std::set<int>::insert`: the new contents and whether the key was
inserted (`.second` of the returned pair). -/
def set_insert : List Int → Int → List Int × Bool
  | [], x => ([x], true)
  | y :: s, x =>
    if x < y then (x :: y :: s, true)
    else if y < x then ((y :: (set_insert s x).1), (set_insert s x).2)
    else (y :: s, false)

/-- Result of `std::upper_bound` with the comparator `*a < *b`: the index of the
first entry greater than `x`, or the length when there is none. -/
def upper_bound : List Int → Int → Nat
  | [], _ => 0
  | y :: v, x => if x < y then 0 else upper_bound v x + 1

/-- Result of `std::vector::insert(pos, x)`. -/
def vector_insert (v : List Int) (pos : Nat) (x : Int) : List Int :=
  v.take pos ++ x :: v.drop pos

/-- Result of `std::vector::at(i)`: bounds-checked access. -/
def vector_at (v : List Int) (i : Nat) : Except Fault Int :=
  match v[i]? with
  | some x => Except.ok x
  | none => Except.error (Fault.out_of_range what_vector_at)

/-- Largest value of `size_t` (64-bit). -/
def SIZE_MAX : Nat := 18446744073709551615

/-- The `size_t` expression `n - 1`, which wraps for `n = 0`. -/
def size_pred (n : Nat) : Nat := if n = 0 then SIZE_MAX else n - 1

/-! ## The container -/

/-- State of a `MagicalContainer`: the set and the three vectors. -/
structure MagicalContainer where
  elements : List Int
  elementsAsc : List Int
  elementsSide : List Int
  elementsP : List Int
  deriving DecidableEq

namespace MagicalContainer

/-- The freshly constructed container. -/
def empty : MagicalContainer := ⟨[], [], [], []⟩

/-- Translation of `MagicalContainer::size()`. -/
def size (c : MagicalContainer) : Nat := c.elements.length

/-- The loop `while (start <= end && end != 0)` that refills `elementsSide`,
shared by `addElement` and `removeElement`.  Arguments: the ascending vector,
`end`, `start` and the side vector built so far.  Returns the side vector as the
loop leaves it and the exception of `at`, if one was thrown.  Inside the body
`end != 0`, so `end--` does not wrap; `start++` follows a successful
`at(start)`, so it does not wrap either. -/
def sideLoop (elementsAsc : List Int) : Nat → Nat → List Int → List Int × Option Fault
  | 0, _, side => (side, none)
  | e + 1, start, side =>
    if start ≤ e + 1 then
      match vector_at elementsAsc start with
      | Except.error f => (side, some f)
      | Except.ok x =>
        if start ≠ e + 1 then
          match vector_at elementsAsc (e + 1) with
          | Except.error f => (side ++ [x], some f)
          | Except.ok y => sideLoop elementsAsc e (start + 1) (side ++ [x] ++ [y])
        else sideLoop elementsAsc e (start + 1) (side ++ [x])
    else (side, none)

/-- Translation of `MagicalContainer::addElement(int element)`. -/
def addElement (c : MagicalContainer) (element : Int) : MagicalContainer × Option Fault :=
  let ins := set_insert c.elements element
  if ins.2 then
    let asc := vector_insert c.elementsAsc (upper_bound c.elementsAsc element) element
    let end_ := size_pred asc.length
    let p :=
      if isPrime element then
        vector_insert c.elementsP (upper_bound c.elementsP element) element
      else c.elementsP
    if ins.1.length = 1 then
      match asc with
      | a :: _ => (⟨ins.1, asc, [a], p⟩, none)
      | [] => (⟨ins.1, asc, [], p⟩, some Fault.undefined)
    else
      let r := sideLoop asc end_ 0 []
      (⟨ins.1, asc, r.1, p⟩, r.2)
  else (c, none)

/-- Translation of `MagicalContainer::removeElement(int element)`. -/
def removeElement (c : MagicalContainer) (element : Int) : MagicalContainer × Option Fault :=
  if element ∈ c.elements then
    let els := c.elements.erase element
    let p := if isPrime element then c.elementsP.erase element else c.elementsP
    let asc := c.elementsAsc.erase element
    if els.length = 0 then (⟨els, asc, [], p⟩, none)
    else if els.length = 1 then
      match asc with
      | a :: _ => (⟨els, asc, [a], p⟩, none)
      | [] => (⟨els, asc, [], p⟩, some Fault.undefined)
    else
      let r := sideLoop asc (size_pred asc.length) 0 []
      (⟨els, asc, r.1, p⟩, r.2)
  else (c, some (Fault.runtime_error what_not_found))

end MagicalContainer

open MagicalContainer

/-! ## Sequences of calls -/

/-- A mutating call on a container. -/
inductive Op where
  | add (v : Int)
  | remove (v : Int)
  deriving DecidableEq

/-- One call. -/
def step (c : MagicalContainer) : Op → MagicalContainer × Option Fault
  | Op.add v => addElement c v
  | Op.remove v => removeElement c v

/-- Runs a sequence of calls from `c`; `none` as soon as a call throws. -/
def run : List Op → MagicalContainer → Option MagicalContainer
  | [], c => some c
  | op :: ops, c =>
    match step c op with
    | (c', none) => run ops c'
    | (_, some _) => none

/-- States reached from the empty container by calls that all return normally. -/
def Reachable (c : MagicalContainer) : Prop := ∃ ops, run ops MagicalContainer.empty = some c

/-! ## Cursors -/

/-- Memory: the container stored at each address. -/
abbrev Heap := Nat → MagicalContainer

/-- The implicitly defined `MagicalContainer::operator=(MagicalContainer&&)`
applied to the object at `dst` with the object at `src` as argument: the four
members are move-assigned one by one, so `dst` receives what `src` held and the
moved-from object is left in a valid but unspecified state, `residue`. -/
def Heap.move_assign (h : Heap) (residue : MagicalContainer) (dst src : Nat) : Heap :=
  Function.update (Function.update h dst (h src)) src residue

/-- The three cursor classes.  Their member functions are the same text except
for the vector they read. -/
inductive IteratorKind where
  | Ascending
  | SideCross
  | Prime
  deriving DecidableEq

/-- The vector a cursor class reads: `elementsAsc`, `elementsSide` or
`elementsP`. -/
def MagicalContainer.view (c : MagicalContainer) : IteratorKind → List Int
  | IteratorKind.Ascending => c.elementsAsc
  | IteratorKind.SideCross => c.elementsSide
  | IteratorKind.Prime => c.elementsP

/-- Data members of a cursor: `MagicalContainer& container` (as the address of
the container) and `size_t index`. -/
structure Iterator (kind : IteratorKind) where
  container : Nat
  index : Nat
  deriving DecidableEq

/-- The class `AscendingIterator`. -/
abbrev AscendingIterator := Iterator IteratorKind.Ascending

/-- The class `SideCrossIterator`. -/
abbrev SideCrossIterator := Iterator IteratorKind.SideCross

/-- The class `PrimeIterator`. -/
abbrev PrimeIterator := Iterator IteratorKind.Prime

namespace Iterator

variable {kind : IteratorKind}

/-- Constructor `(MagicalContainer &container, size_t index)`. -/
def ctor_at (container : Nat) (index : Nat) : Iterator kind := ⟨container, index⟩

/-- Constructor `(MagicalContainer &container)`. -/
def ctor (container : Nat) : Iterator kind := ⟨container, 0⟩

/-- Copy constructor. -/
def copy_ctor (other : Iterator kind) : Iterator kind := ⟨other.container, other.index⟩

/-- Move constructor. -/
def move_ctor (other : Iterator kind) : Iterator kind := ⟨other.container, other.index⟩

/-- Copy assignment `operator=(const Iterator &other)`.  `same_object` is the
outcome of the test `this == &other`.  Returns the receiver after the call (which
is also what the returned reference denotes) and the exception thrown, if any. -/
def copy_assign (self other : Iterator kind) (same_object : Bool) :
    Iterator kind × Option Fault :=
  if !same_object then
    if other.container ≠ self.container then
      (self, some (Fault.runtime_error what_not_same))
    else (⟨self.container, other.index⟩, none)
  else (self, none)

/-- Move assignment `operator=(Iterator &&other) noexcept`.  The statement
`container = move(other.container)` assigns through the reference member: it
move-assigns the container object the receiver is bound to; the receiver stays
bound to the same address.  Returns the memory and the receiver after the
call. -/
def move_assign (h : Heap) (residue : MagicalContainer) (self other : Iterator kind)
    (same_object : Bool) : Heap × Iterator kind :=
  if !same_object then
    (h.move_assign residue self.container other.container, ⟨self.container, other.index⟩)
  else (h, self)

/-- Comparison `operator==`. -/
def eq (self other : Iterator kind) : Except Fault Bool :=
  if other.container ≠ self.container then
    Except.error (Fault.runtime_error what_not_same)
  else Except.ok (decide (self.index = other.index))

/-- Comparison `operator!=`. -/
def ne (self other : Iterator kind) : Except Fault Bool :=
  if other.container ≠ self.container then
    Except.error (Fault.runtime_error what_not_same)
  else Except.ok (decide (self.index ≠ other.index))

/-- Comparison `operator>`. -/
def gt (self other : Iterator kind) : Except Fault Bool :=
  if other.container ≠ self.container then
    Except.error (Fault.runtime_error what_not_same)
  else Except.ok (decide (self.index > other.index))

/-- Comparison `operator<`. -/
def lt (self other : Iterator kind) : Except Fault Bool :=
  if other.container ≠ self.container then
    Except.error (Fault.runtime_error what_not_same)
  else Except.ok (decide (self.index < other.index))

/-- Dereference `operator*() const`: the receiver after the call and the value
read, or the exception thrown. -/
def deref (h : Heap) (self : Iterator kind) : Iterator kind × Except Fault Int :=
  if self.index ≥ ((h self.container).view kind).length then
    (self, Except.error (Fault.out_of_range what_range))
  else
    match vector_at ((h self.container).view kind) self.index with
    | Except.ok x => (self, Except.ok x)
    | Except.error f => (self, Except.error f)

/-- Pre-increment `operator++()`: the receiver after the call, and the cursor
the returned reference `*this` denotes or the exception thrown. -/
def inc (h : Heap) (self : Iterator kind) : Iterator kind × Except Fault (Iterator kind) :=
  if self.index ≥ ((h self.container).view kind).length then
    (self, Except.error (Fault.runtime_error what_range))
  else
    (⟨self.container, self.index + 1⟩, Except.ok ⟨self.container, self.index + 1⟩)

/-- Member `begin()`. -/
def begin_ (self : Iterator kind) : Iterator kind := ctor_at self.container 0

/-- Member `end()`. -/
def end_ (h : Heap) (self : Iterator kind) : Iterator kind :=
  ctor_at self.container ((h self.container).view kind).length

/-- Applies `operator++` up to `n` times, stopping at the first call that
throws; the cursor after the last call and the exception of the call that
failed, if any. -/
def inc_times (h : Heap) : Nat → Iterator kind → Iterator kind × Option Fault
  | 0, it => (it, none)
  | n + 1, it =>
    match inc h it with
    | (it', Except.ok _) => inc_times h n it'
    | (it', Except.error f) => (it', some f)

end Iterator

/-- A container holding 1 and 2 at address 0, an empty one everywhere else. -/
def heap_one_two : Heap := fun a => if a = 0 then ⟨[1, 2], [1, 2], [1, 2], [2]⟩ else MagicalContainer.empty

/-! ## Specification-side definitions -/

/-- The side-cross order in the words of the specification: alternately the
front and the back of what remains of the ascending sequence, until nothing
remains. -/
def sideCrossSpec : List Int → List Int
  | [] => []
  | [a] => [a]
  | a :: b :: t =>
    a :: (b :: t).getLast (List.cons_ne_nil b t) :: sideCrossSpec (b :: t).dropLast
termination_by l => l.length
decreasing_by
  simp only [List.dropLast_cons₂, List.length_cons, List.length_dropLast]
  omega

/-- The consistency of a container state: the set is strictly ascending, the
ascending vector lists it, the prime vector lists its primes in the same order
and the side vector is its side-cross order. -/
def WellFormed (c : MagicalContainer) : Prop :=
  c.elements.Pairwise (· < ·) ∧
  c.elementsAsc = c.elements ∧
  c.elementsP = c.elements.filter (fun x => isPrime x) ∧
  c.elementsSide = sideCrossSpec c.elements

/-- Whether `x` is among the values added and not subsequently removed by the
calls `ops`, given whether it was present before them. -/
def present_after : List Op → Int → Bool → Bool
  | [], _, b => b
  | Op.add v :: ops, x, b => present_after ops x (if v = x then true else b)
  | Op.remove v :: ops, x, b => present_after ops x (if v = x then false else b)

/-! ## The rebuild loop with a record of what it did -/

/-- The `size_t` expression `n + 1` of `start++`, which wraps at `SIZE_MAX`. -/
def size_succ (n : Nat) : Nat := if n = SIZE_MAX then 0 else n + 1

/-- The variables of the loop `while (start <= end && end != 0)` together with a
record of its run: the indices passed to `elementsAsc.at()`, in order, the
number of completed iterations, and whether `end--` was ever executed with
`end == 0`. -/
structure LoopState where
  start : Nat
  end_ : Nat
  side : List Int
  reads : List Nat
  iterations : Nat
  end_wrapped : Bool
  deriving DecidableEq

/-- One execution of the loop body: the state after it and the exception of
`at`, if one was thrown.  Both counters are updated in `size_t` arithmetic. -/
def loopBody (elementsAsc : List Int) (s : LoopState) : LoopState × Option Fault :=
  match vector_at elementsAsc s.start with
  | Except.error f =>
    (⟨s.start, s.end_, s.side, s.reads ++ [s.start], s.iterations, s.end_wrapped⟩, some f)
  | Except.ok x =>
    if s.start ≠ s.end_ then
      match vector_at elementsAsc s.end_ with
      | Except.error f =>
        (⟨s.start, s.end_, s.side ++ [x], s.reads ++ [s.start] ++ [s.end_], s.iterations,
          s.end_wrapped⟩, some f)
      | Except.ok y =>
        (⟨size_succ s.start, size_pred s.end_, s.side ++ [x] ++ [y],
          s.reads ++ [s.start] ++ [s.end_], s.iterations + 1,
          s.end_wrapped || decide (s.end_ = 0)⟩, none)
    else
      (⟨size_succ s.start, size_pred s.end_, s.side ++ [x], s.reads ++ [s.start],
        s.iterations + 1, s.end_wrapped || decide (s.end_ = 0)⟩, none)

/-- The loop run for at most `fuel` iterations: `none` when the loop test still
holds after `fuel` iterations, otherwise the state at exit and the exception
that ended the loop, if any. -/
def sideLoopTrace (elementsAsc : List Int) : Nat → LoopState → Option (LoopState × Option Fault)
  | 0, s => if s.start ≤ s.end_ ∧ s.end_ ≠ 0 then none else some (s, none)
  | fuel + 1, s =>
    if s.start ≤ s.end_ ∧ s.end_ ≠ 0 then
      match loopBody elementsAsc s with
      | (s', none) => sideLoopTrace elementsAsc fuel s'
      | (s', some f) => some (s', some f)
    else some (s, none)

/-- The loop variables as `addElement` and `removeElement` set them before the
loop: `start = 0`, `end = elementsAsc.size() - 1`, `elementsSide` cleared. -/
def loopEntry (elementsAsc : List Int) : LoopState :=
  ⟨0, size_pred elementsAsc.length, [], [], 0, false⟩

/-- Number of iterations the loop still performs from `start` and `end`. -/
def iterations_left (start end_ : Nat) : Nat :=
  if start ≤ end_ ∧ end_ ≠ 0 then (end_ - start) / 2 + 1 else 0

/-! ## Lists: ordered insertion, erasure and filtering -/

section Lists

theorem insert_upper_nil (x : Int) : vector_insert [] (upper_bound [] x) x = [x] := rfl

theorem insert_upper_cons (y : Int) (v : List Int) (x : Int) :
    vector_insert (y :: v) (upper_bound (y :: v) x) x =
      if x < y then x :: y :: v else y :: vector_insert v (upper_bound v x) x := by
  by_cases h : x < y
  · simp [upper_bound, vector_insert, h]
  · simp [upper_bound, vector_insert, h]

theorem mem_vector_insert (v : List Int) (n : Nat) (x a : Int) :
    a ∈ vector_insert v n x ↔ a = x ∨ a ∈ v := by
  have h : a ∈ v ↔ a ∈ v.take n ∨ a ∈ v.drop n := by
    rw [← List.mem_append, List.take_append_drop]
  simp only [vector_insert, List.mem_append, List.mem_cons, h]
  tauto

theorem length_vector_insert (v : List Int) (n : Nat) (x : Int) :
    (vector_insert v n x).length = v.length + 1 := by
  have h : (v.take n ++ v.drop n).length = v.length := by rw [List.take_append_drop]
  simp only [vector_insert, List.length_append, List.length_cons] at h ⊢
  omega

theorem filter_vector_insert_of_false (p : Int → Bool) (v : List Int) (n : Nat) (x : Int)
    (hx : p x = false) : (vector_insert v n x).filter p = v.filter p := by
  have h : (v.take n ++ v.drop n).filter p = v.filter p := by rw [List.take_append_drop]
  rw [List.filter_append] at h
  rw [vector_insert, List.filter_append, List.filter_cons_of_neg (by simp [hx]), h]

theorem insert_upper_of_all_gt (v : List Int) (x : Int) (h : ∀ a ∈ v, x < a) :
    vector_insert v (upper_bound v x) x = x :: v := by
  cases v with
  | nil => rfl
  | cons y v => rw [insert_upper_cons, if_pos (h y (List.mem_cons_self y v))]

theorem pairwise_insert_upper (s : List Int) (x : Int) (hs : s.Pairwise (· < ·))
    (hx : x ∉ s) : (vector_insert s (upper_bound s x) x).Pairwise (· < ·) := by
  induction s with
  | nil => simp [insert_upper_nil]
  | cons y s ih =>
    rw [List.pairwise_cons] at hs
    rw [insert_upper_cons]
    have hxy : x ≠ y := fun e => hx (e ▸ List.mem_cons_self _ _)
    have hxs : x ∉ s := fun e => hx (List.mem_cons_of_mem _ e)
    by_cases h : x < y
    · rw [if_pos h]
      refine List.pairwise_cons.mpr ⟨?_, List.pairwise_cons.mpr hs⟩
      intro a ha
      rcases List.mem_cons.mp ha with rfl | ha
      · exact h
      · exact lt_trans h (hs.1 a ha)
    · rw [if_neg h]
      refine List.pairwise_cons.mpr ⟨?_, ih hs.2 hxs⟩
      intro a ha
      rcases (mem_vector_insert _ _ _ _).mp ha with rfl | ha
      · exact lt_of_le_of_ne (not_lt.mp h) (Ne.symm hxy)
      · exact hs.1 a ha

theorem filter_insert_upper (p : Int → Bool) (s : List Int) (x : Int)
    (hs : s.Pairwise (· < ·)) (hx : p x = true) :
    (vector_insert s (upper_bound s x) x).filter p
      = vector_insert (s.filter p) (upper_bound (s.filter p) x) x := by
  induction s with
  | nil => simp [insert_upper_nil, hx]
  | cons y s ih =>
    rw [List.pairwise_cons] at hs
    rw [insert_upper_cons]
    by_cases h : x < y
    · rw [if_pos h, List.filter_cons_of_pos hx]
      symm
      apply insert_upper_of_all_gt
      intro a ha
      rcases List.mem_cons.mp (List.mem_of_mem_filter ha) with rfl | ha
      · exact h
      · exact lt_trans h (hs.1 a ha)
    · rw [if_neg h]
      by_cases hy : p y = true
      · rw [List.filter_cons_of_pos hy, List.filter_cons_of_pos hy, insert_upper_cons,
          if_neg h, ih hs.2]
      · rw [List.filter_cons_of_neg hy, List.filter_cons_of_neg hy, ih hs.2]

theorem filter_erase_comm (p : Int → Bool) (l : List Int) (x : Int) :
    (l.filter p).erase x = (l.erase x).filter p := by
  induction l with
  | nil => rfl
  | cons y l ih =>
    by_cases hyx : y = x
    · subst hyx
      rw [List.erase_cons_head]
      by_cases hy : p y = true
      · rw [List.filter_cons_of_pos hy, List.erase_cons_head]
      · rw [List.filter_cons_of_neg hy]
        apply List.erase_of_not_mem
        intro hm
        exact hy (List.of_mem_filter hm)
    · rw [List.erase_cons_tail (by simpa using hyx)]
      by_cases hy : p y = true
      · rw [List.filter_cons_of_pos hy, List.filter_cons_of_pos hy,
          List.erase_cons_tail (by simpa using hyx), ih]
      · rw [List.filter_cons_of_neg hy, List.filter_cons_of_neg hy, ih]

theorem set_insert_of_mem (s : List Int) (x : Int) (hs : s.Pairwise (· < ·)) (hx : x ∈ s) :
    set_insert s x = (s, false) := by
  induction s with
  | nil => cases hx
  | cons y s ih =>
    rw [List.pairwise_cons] at hs
    have hnlt : ¬ x < y := by
      rcases List.mem_cons.mp hx with rfl | hm
      · exact lt_irrefl _
      · exact not_lt.mpr (le_of_lt (hs.1 x hm))
    unfold set_insert
    rw [if_neg hnlt]
    by_cases hyx : y < x
    · have hm : x ∈ s := by
        rcases List.mem_cons.mp hx with rfl | hm
        · exact absurd hyx (lt_irrefl _)
        · exact hm
      rw [if_pos hyx, ih hs.2 hm]
    · rw [if_neg hyx]

theorem set_insert_of_not_mem (s : List Int) (x : Int) (hx : x ∉ s) :
    set_insert s x = (vector_insert s (upper_bound s x) x, true) := by
  induction s with
  | nil => rfl
  | cons y s ih =>
    have hxy : x ≠ y := fun e => hx (e ▸ List.mem_cons_self _ _)
    have hxs : x ∉ s := fun e => hx (List.mem_cons_of_mem _ e)
    rw [insert_upper_cons]
    unfold set_insert
    by_cases h : x < y
    · rw [if_pos h, if_pos h]
    · have hyx : y < x := lt_of_le_of_ne (not_lt.mp h) (Ne.symm hxy)
      rw [if_neg h, if_neg h, if_pos hyx, ih hxs]

theorem eq_of_pairwise_of_mem_iff (s t : List Int) (hs : s.Pairwise (· < ·))
    (ht : t.Pairwise (· < ·)) (h : ∀ x, x ∈ s ↔ x ∈ t) : s = t := by
  have hs' : s.Nodup := hs.imp (fun hab => ne_of_lt hab)
  have ht' : t.Nodup := ht.imp (fun hab => ne_of_lt hab)
  exact List.eq_of_perm_of_sorted ((List.perm_ext_iff_of_nodup hs' ht').mpr h) hs ht

end Lists

/-! ## The side-cross order and the loop that builds it -/

section SideCross

theorem sideCrossSpec_ends (a b : Int) (m : List Int) :
    sideCrossSpec (a :: (m ++ [b])) = a :: b :: sideCrossSpec m := by
  cases m with
  | nil => simp [sideCrossSpec]
  | cons c m =>
    have hd : (c :: (m ++ [b])).dropLast = c :: m := by
      rw [← List.cons_append, List.dropLast_concat]
    rw [List.cons_append, sideCrossSpec, hd]
    simp

theorem sideCrossSpec_nil : sideCrossSpec [] = [] := by
  rw [sideCrossSpec]

theorem sideCrossSpec_singleton (a : Int) : sideCrossSpec [a] = [a] := by
  rw [sideCrossSpec]

theorem sideCrossSpec_perm (l : List Int) : (sideCrossSpec l).Perm l := by
  induction l using List.bidirectionalRec with
  | nil => rw [sideCrossSpec_nil]
  | singleton a => rw [sideCrossSpec_singleton]
  | cons_append a m b ih =>
    rw [sideCrossSpec_ends]
    refine List.Perm.cons a ?_
    exact (List.Perm.cons b ih).trans (List.perm_append_singleton b m).symm

theorem sideCrossSpec_length (l : List Int) : (sideCrossSpec l).length = l.length :=
  (sideCrossSpec_perm l).length_eq

theorem sideCrossSpec_index (l : List Int) (k : Nat) :
    (2 * k < l.length → (sideCrossSpec l)[2 * k]? = l[k]?) ∧
    (2 * k + 1 < l.length → (sideCrossSpec l)[2 * k + 1]? = l[l.length - 1 - k]?) := by
  induction l using List.bidirectionalRec generalizing k with
  | nil => simp
  | singleton a =>
    rw [sideCrossSpec_singleton]
    constructor
    · intro h
      have hk : k = 0 := by simp at h; omega
      subst hk; rfl
    · intro h; simp at h
  | cons_append a m b ih =>
    rw [sideCrossSpec_ends]
    cases k with
    | zero =>
      constructor
      · intro _; simp
      · intro _
        have hl : (a :: (m ++ [b])).length - 1 - 0 = (a :: m).length := by simp
        rw [hl, ← List.cons_append, List.getElem?_append_right (Nat.le_refl _)]
        simp
    | succ k =>
      have ihk := ih k
      constructor
      · intro h
        have h' : 2 * k < m.length := by simp at h; omega
        have e1 : 2 * (k + 1) = 2 * k + 1 + 1 := by ring
        rw [e1, List.getElem?_cons_succ, List.getElem?_cons_succ, ihk.1 h',
          List.getElem?_cons_succ, List.getElem?_append_left (by omega)]
      · intro h
        have h' : 2 * k + 1 < m.length := by simp at h; omega
        have e1 : 2 * (k + 1) + 1 = 2 * k + 1 + 1 + 1 := by ring
        have e2 : (a :: (m ++ [b])).length - 1 - (k + 1) = (m.length - 1 - k) + 1 := by
          simp; omega
        rw [e1, List.getElem?_cons_succ, List.getElem?_cons_succ, ihk.2 h', e2,
          List.getElem?_cons_succ, List.getElem?_append_left (by omega)]

theorem vector_at_append (pre rest : List Int) (a : Int) :
    vector_at (pre ++ a :: rest) pre.length = Except.ok a := by
  have h : (pre ++ a :: rest)[pre.length]? = some a := by
    rw [List.getElem?_append_right (Nat.le_refl _)]
    simp
  unfold vector_at
  rw [h]

theorem sideLoop_exit (asc : List Int) (e s : Nat) (side : List Int) (h : e < s) :
    sideLoop asc e s side = (side, none) := by
  cases e with
  | zero => rfl
  | succ e =>
    unfold sideLoop
    rw [if_neg (by omega)]

theorem sideLoop_window (m : List Int) :
    ∀ (pre post side asc : List Int) (e s : Nat),
      asc = pre ++ m ++ post → e = pre.length + m.length - 1 → s = pre.length →
      (m.length = 1 → pre ≠ []) →
      sideLoop asc e s side = (side ++ sideCrossSpec m, none) := by
  induction m using List.bidirectionalRec with
  | nil =>
    intro pre post side asc e s _ he hs _
    rw [sideCrossSpec_nil, List.append_nil]
    cases e with
    | zero => rfl
    | succ e => exact sideLoop_exit _ _ _ _ (by simp at he; omega)
  | singleton a =>
    intro pre post side asc e s hasc he hs hpre
    have hp : 0 < pre.length := List.length_pos.mpr (hpre rfl)
    rw [sideCrossSpec_singleton]
    have he' : e = (pre.length - 1) + 1 := by simp at he; omega
    have h1 : vector_at asc s = Except.ok a := by
      rw [hasc, hs, List.append_assoc]; exact vector_at_append _ _ _
    rw [he']
    unfold sideLoop
    rw [if_pos (by omega), h1]
    simp only
    rw [if_neg (by omega)]
    exact sideLoop_exit _ _ _ _ (by omega)
  | cons_append a m b ih =>
    intro pre post side asc e s hasc he hs _
    have he' : e = (pre.length + m.length) + 1 := by simp at he; omega
    have h1 : vector_at asc s = Except.ok a := by
      rw [hasc, hs, List.append_assoc]; exact vector_at_append _ _ _
    have h2 : vector_at asc (pre.length + m.length + 1) = Except.ok b := by
      have : asc = (pre ++ a :: m) ++ b :: post := by rw [hasc]; simp
      rw [this]
      have hl : pre.length + m.length + 1 = (pre ++ a :: m).length := by
        simp only [List.length_append, List.length_cons]; omega
      rw [hl]; exact vector_at_append _ _ _
    rw [he']
    unfold sideLoop
    rw [if_pos (by omega), h1]
    simp only
    rw [if_pos (by omega), h2]
    simp only
    rw [ih (pre ++ [a]) (b :: post) (side ++ [a] ++ [b]) asc (pre.length + m.length) (s + 1)
      (by rw [hasc]; simp) (by simp) (by simp [hs]) (by intro _; simp), sideCrossSpec_ends]
    simp

theorem sideLoop_whole (asc : List Int) (h : 2 ≤ asc.length) :
    sideLoop asc (size_pred asc.length) 0 [] = (sideCrossSpec asc, none) := by
  have hp : size_pred asc.length = asc.length - 1 := by
    unfold size_pred; rw [if_neg (by omega)]
  rw [hp, sideLoop_window asc [] [] [] asc (asc.length - 1) 0 (by simp) (by simp) rfl
    (by intro h1; omega)]
  simp

end SideCross

/-! ## Calls on a consistent container -/

section Steps

theorem wellFormed_empty : WellFormed MagicalContainer.empty := by
  refine ⟨List.Pairwise.nil, rfl, rfl, ?_⟩
  show [] = sideCrossSpec []
  rw [sideCrossSpec_nil]

theorem wellFormed_ext (c d : MagicalContainer) (hc : WellFormed c) (hd : WellFormed d)
    (h : c.elements = d.elements) : c = d := by
  obtain ⟨_, c2, c3, c4⟩ := hc
  obtain ⟨_, d2, d3, d4⟩ := hd
  cases c
  cases d
  simp only at h c2 c3 c4 d2 d3 d4
  subst h
  simp [c2, c3, c4, d2, d3, d4]

theorem rebuild_side (asc : List Int) (n : Nat) (hn : n = asc.length) (h0 : 0 < n) :
    (if n = 1 then
      (match asc with
        | a :: _ => ((a :: []), (none : Option Fault))
        | [] => ([], some Fault.undefined))
     else sideLoop asc (size_pred asc.length) 0 []) = (sideCrossSpec asc, none) := by
  subst hn
  by_cases h1 : asc.length = 1
  · rw [if_pos h1]
    match asc, h1 with
    | [a], _ => simp [sideCrossSpec_singleton]
  · rw [if_neg h1]
    exact sideLoop_whole asc (by omega)

theorem addElement_of_mem (c : MagicalContainer) (v : Int) (hc : WellFormed c)
    (hv : v ∈ c.elements) : addElement c v = (c, none) := by
  unfold addElement
  simp only [set_insert_of_mem c.elements v hc.1 hv]
  rfl

theorem addElement_of_not_mem (c : MagicalContainer) (v : Int) (hc : WellFormed c)
    (hv : v ∉ c.elements) :
    (addElement c v).2 = none ∧ WellFormed (addElement c v).1 ∧
    (addElement c v).1.elements
      = vector_insert c.elements (upper_bound c.elements v) v := by
  obtain ⟨h1, h2, h3, h4⟩ := hc
  have key : addElement c v =
      (⟨vector_insert c.elements (upper_bound c.elements v) v,
        vector_insert c.elements (upper_bound c.elements v) v,
        sideCrossSpec (vector_insert c.elements (upper_bound c.elements v) v),
        (vector_insert c.elements (upper_bound c.elements v) v).filter (fun x => isPrime x)⟩,
       none) := by
    have hp : (if isPrime v = true then
          vector_insert c.elementsP (upper_bound c.elementsP v) v else c.elementsP)
        = (vector_insert c.elements (upper_bound c.elements v) v).filter
            (fun x => isPrime x) := by
      by_cases hv' : isPrime v = true
      · rw [if_pos hv', h3, filter_insert_upper (fun x => isPrime x) _ _ h1 hv']
      · rw [if_neg hv', h3, filter_vector_insert_of_false (fun x => isPrime x) _ _ _
          (by simpa using hv')]
    have hr := rebuild_side (vector_insert c.elements (upper_bound c.elements v) v)
      (vector_insert c.elements (upper_bound c.elements v) v).length rfl
      (by rw [length_vector_insert]; omega)
    unfold addElement
    simp only [set_insert_of_not_mem c.elements v hv, if_true, h2, hp]
    generalize vector_insert c.elements (upper_bound c.elements v) v = l at hr ⊢
    by_cases hl : l.length = 1
    · cases l with
      | nil => simp at hl
      | cons a t =>
        rw [if_pos hl] at hr ⊢
        simp only [Prod.mk.injEq] at hr
        rw [← hr.1]
    · rw [if_neg hl] at hr ⊢
      rw [hr]
  rw [key]
  exact ⟨rfl, ⟨pairwise_insert_upper _ _ h1 hv, rfl, rfl, rfl⟩, rfl⟩

theorem removeElement_of_not_mem (c : MagicalContainer) (v : Int) (hv : v ∉ c.elements) :
    removeElement c v = (c, some (Fault.runtime_error what_not_found)) := by
  unfold removeElement
  rw [if_neg hv]

theorem removeElement_of_mem (c : MagicalContainer) (v : Int) (hc : WellFormed c)
    (hv : v ∈ c.elements) :
    (removeElement c v).2 = none ∧ WellFormed (removeElement c v).1 ∧
    (removeElement c v).1.elements = c.elements.erase v := by
  obtain ⟨h1, h2, h3, h4⟩ := hc
  have key : removeElement c v =
      (⟨c.elements.erase v, c.elements.erase v, sideCrossSpec (c.elements.erase v),
        (c.elements.erase v).filter (fun x => isPrime x)⟩, none) := by
    have hp : (if isPrime v = true then c.elementsP.erase v else c.elementsP)
        = (c.elements.erase v).filter (fun x => isPrime x) := by
      rw [← filter_erase_comm, h3]
      by_cases hv' : isPrime v = true
      · rw [if_pos hv']
      · rw [if_neg hv']
        symm
        apply List.erase_of_not_mem
        intro hm
        exact hv' (by simpa using List.of_mem_filter hm)
    unfold removeElement
    simp only [if_pos hv, h2, hp]
    generalize c.elements.erase v = l
    by_cases hl0 : l.length = 0
    · rw [if_pos hl0]
      have : l = [] := List.length_eq_zero.mp hl0
      rw [this, sideCrossSpec_nil]
    · rw [if_neg hl0]
      have hr := rebuild_side l l.length rfl (by omega)
      by_cases hl : l.length = 1
      · cases l with
        | nil => simp at hl
        | cons a t =>
          rw [if_pos hl] at hr ⊢
          simp only [Prod.mk.injEq] at hr
          rw [← hr.1]
      · rw [if_neg hl] at hr ⊢
        rw [hr]
  rw [key]
  exact ⟨rfl, ⟨h1.sublist (List.erase_sublist v c.elements), rfl, rfl, rfl⟩, rfl⟩

theorem step_wellFormed (c c' : MagicalContainer) (op : Op) (hc : WellFormed c)
    (h : step c op = (c', none)) : WellFormed c' := by
  cases op with
  | add v =>
    by_cases hv : v ∈ c.elements
    · have e := addElement_of_mem c v hc hv
      simp only [step, e, Prod.mk.injEq] at h
      rw [← h.1]; exact hc
    · have e := (addElement_of_not_mem c v hc hv).2.1
      simp only [step] at h
      rw [h] at e; exact e
  | remove v =>
    by_cases hv : v ∈ c.elements
    · have e := (removeElement_of_mem c v hc hv).2.1
      simp only [step] at h
      rw [h] at e; exact e
    · have e := removeElement_of_not_mem c v hv
      simp only [step, e, Prod.mk.injEq] at h
      cases h.2

theorem run_wellFormed (ops : List Op) :
    ∀ (c c' : MagicalContainer), WellFormed c → run ops c = some c' → WellFormed c' := by
  induction ops with
  | nil =>
    intro c c' hc h
    simp only [run, Option.some.injEq] at h
    rw [← h]; exact hc
  | cons op ops ih =>
    intro c c' hc h
    unfold run at h
    generalize hs : step c op = r at h
    obtain ⟨c1, f⟩ := r
    cases f with
    | none => exact ih c1 c' (step_wellFormed c c1 op hc hs) h
    | some f => cases h

theorem reachable_wellFormed (c : MagicalContainer) (h : Reachable c) : WellFormed c := by
  obtain ⟨ops, h⟩ := h
  exact run_wellFormed ops _ _ wellFormed_empty h

end Steps

/-! ## Properties of reachable containers -/

section Container

theorem mem_step_add (c : MagicalContainer) (v x : Int) (hc : WellFormed c) :
    x ∈ (addElement c v).1.elements ↔ x = v ∨ x ∈ c.elements := by
  by_cases hv : v ∈ c.elements
  · rw [addElement_of_mem c v hc hv]
    constructor
    · intro h; exact Or.inr h
    · rintro (rfl | h)
      · exact hv
      · exact h
  · rw [(addElement_of_not_mem c v hc hv).2.2]
    exact mem_vector_insert _ _ _ _

theorem mem_step_remove (c : MagicalContainer) (v x : Int) (hc : WellFormed c)
    (hv : v ∈ c.elements) :
    x ∈ (removeElement c v).1.elements ↔ x ≠ v ∧ x ∈ c.elements := by
  rw [(removeElement_of_mem c v hc hv).2.2]
  have hnd : c.elements.Nodup := hc.1.imp (fun hab => ne_of_lt hab)
  exact hnd.mem_erase_iff

theorem mem_run (ops : List Op) :
    ∀ (c c' : MagicalContainer) (x : Int), WellFormed c → run ops c = some c' →
      (x ∈ c'.elements ↔ present_after ops x (decide (x ∈ c.elements)) = true) := by
  induction ops with
  | nil =>
    intro c c' x _ h
    simp only [run, Option.some.injEq] at h
    subst h
    simp [present_after]
  | cons op ops ih =>
    intro c c' x hc h
    unfold run at h
    generalize hs : step c op = r at h
    obtain ⟨c1, f⟩ := r
    cases f with
    | some f => cases h
    | none =>
      have hc1 := step_wellFormed c c1 op hc hs
      rw [ih c1 c' x hc1 h]
      cases op with
      | add v =>
        have hm := mem_step_add c v x hc
        simp only [step] at hs
        rw [hs] at hm
        have hb : decide (x ∈ c1.elements)
            = (if v = x then true else decide (x ∈ c.elements)) := by
          by_cases hvx : v = x
          · simp [hvx, hm]
          · have hxv : ¬ x = v := fun e => hvx e.symm
            simp [hvx, hm, hxv]
        simp only [present_after, hb]
      | remove v =>
        simp only [step] at hs
        by_cases hv : v ∈ c.elements
        · have hm := mem_step_remove c v x hc hv
          rw [hs] at hm
          have hb : decide (x ∈ c1.elements)
              = (if v = x then false else decide (x ∈ c.elements)) := by
            by_cases hvx : v = x
            · simp [hvx, hm]
            · have hxv : ¬ x = v := fun e => hvx e.symm
              simp [hvx, hm, hxv]
          simp only [present_after, hb]
        · rw [removeElement_of_not_mem c v hv] at hs
          simp only [Prod.mk.injEq] at hs
          cases hs.2

/-- C18: in every container reached from the empty one, the side-cross view has
the length of the ascending view and is a permutation of it: every current
element occurs in it exactly once and nothing else occurs in it. -/
theorem side_view_is_permutation (ops : List Op) (c : MagicalContainer)
    (h : run ops MagicalContainer.empty = some c) :
    c.elementsSide.length = c.elementsAsc.length ∧
    c.elementsSide.Perm c.elementsAsc ∧
    (∀ x, x ∈ c.elements → c.elementsSide.count x = 1) ∧
    (∀ x, x ∈ c.elementsSide → x ∈ c.elements) := by
  obtain ⟨h1, h2, _, h4⟩ := run_wellFormed ops _ _ wellFormed_empty h
  have hperm : c.elementsSide.Perm c.elements := by
    rw [h4]; exact sideCrossSpec_perm _
  have hnd : c.elements.Nodup := h1.imp (fun hab => ne_of_lt hab)
  refine ⟨?_, ?_, ?_, ?_⟩
  · rw [h2]; exact hperm.length_eq
  · rw [h2]; exact hperm
  · intro x hx
    rw [hperm.count_eq]
    exact List.count_eq_one_of_mem hnd hx
  · intro x hx
    exact hperm.subset hx

/-- Witness for C18: adding 7, 3, 2, 9, 4 and removing 3. -/
theorem side_view_is_permutation_witness :
    run [Op.add 7, Op.add 3, Op.add 2, Op.add 9, Op.add 4, Op.remove 3] MagicalContainer.empty
      = some ⟨[2, 4, 7, 9], [2, 4, 7, 9], [2, 9, 4, 7], [2, 7]⟩ ∧
    ([2, 9, 4, 7] : List Int).Perm [2, 4, 7, 9] :=
  ⟨by decide,
   (side_view_is_permutation
      [Op.add 7, Op.add 3, Op.add 2, Op.add 9, Op.add 4, Op.remove 3]
      ⟨[2, 4, 7, 9], [2, 4, 7, 9], [2, 9, 4, 7], [2, 7]⟩ (by decide)).2.1⟩

/-- C19: two sequences of calls from the empty container that leave the same set
of values leave the same ascending, side-cross and prime views. -/
theorem views_depend_only_on_set (ops₁ ops₂ : List Op) (c₁ c₂ : MagicalContainer)
    (h₁ : run ops₁ MagicalContainer.empty = some c₁)
    (h₂ : run ops₂ MagicalContainer.empty = some c₂)
    (hset : ∀ x, x ∈ c₁.elements ↔ x ∈ c₂.elements) :
    c₁.elementsAsc = c₂.elementsAsc ∧ c₁.elementsSide = c₂.elementsSide ∧
    c₁.elementsP = c₂.elementsP := by
  have w₁ := run_wellFormed ops₁ _ _ wellFormed_empty h₁
  have w₂ := run_wellFormed ops₂ _ _ wellFormed_empty h₂
  have he : c₁.elements = c₂.elements :=
    eq_of_pairwise_of_mem_iff _ _ w₁.1 w₂.1 hset
  have hc : c₁ = c₂ := wellFormed_ext c₁ c₂ w₁ w₂ he
  rw [hc]
  exact ⟨rfl, rfl, rfl⟩

/-- Witness for C19: the values 1, 2, 7 reached in two orders, one of them with
an intermediate 5. -/
theorem views_depend_only_on_set_witness :
    run [Op.add 7, Op.add 1, Op.add 2] MagicalContainer.empty
      = some ⟨[1, 2, 7], [1, 2, 7], [1, 7, 2], [2, 7]⟩ ∧
    run [Op.add 2, Op.add 5, Op.add 1, Op.remove 5, Op.add 7] MagicalContainer.empty
      = some ⟨[1, 2, 7], [1, 2, 7], [1, 7, 2], [2, 7]⟩ ∧
    ([1, 2, 7] : List Int) = [1, 2, 7] ∧ ([1, 7, 2] : List Int) = [1, 7, 2] ∧
    ([2, 7] : List Int) = [2, 7] :=
  ⟨by decide, by decide,
   views_depend_only_on_set [Op.add 7, Op.add 1, Op.add 2]
     [Op.add 2, Op.add 5, Op.add 1, Op.remove 5, Op.add 7]
     ⟨[1, 2, 7], [1, 2, 7], [1, 7, 2], [2, 7]⟩ ⟨[1, 2, 7], [1, 2, 7], [1, 7, 2], [2, 7]⟩
     (by decide) (by decide) (fun _ => Iff.rfl)⟩

/-- C1: in every container reached from the empty one the ascending view is
strictly increasing, the side-cross view has its length `n`, its entry at
position `2k` is the ascending entry `k` and its entry at position `2k+1` is the
ascending entry `n-1-k`; it is empty for an empty ascending view and `[a]` for
the ascending view `[a]`. -/
theorem side_view_positions (ops : List Op) (c : MagicalContainer)
    (h : run ops MagicalContainer.empty = some c) :
    c.elementsAsc.Pairwise (· < ·) ∧
    c.elementsSide.length = c.elementsAsc.length ∧
    (∀ k, (2 * k < c.elementsAsc.length → c.elementsSide[2 * k]? = c.elementsAsc[k]?) ∧
      (2 * k + 1 < c.elementsAsc.length →
        c.elementsSide[2 * k + 1]? = c.elementsAsc[c.elementsAsc.length - 1 - k]?)) ∧
    (c.elementsAsc = [] → c.elementsSide = []) ∧
    (∀ a, c.elementsAsc = [a] → c.elementsSide = [a]) := by
  obtain ⟨h1, h2, _, h4⟩ := run_wellFormed ops _ _ wellFormed_empty h
  rw [h2, h4]
  refine ⟨h1, sideCrossSpec_length _, fun k => sideCrossSpec_index _ k, ?_, ?_⟩
  · intro e; rw [e, sideCrossSpec_nil]
  · intro a e; rw [e, sideCrossSpec_singleton]

/-- Witness for C1: after adding 7, 3, 2, 9, 4 the side-cross view has 2 at
position 0 and 9 at position 1. -/
theorem side_view_positions_witness :
    run [Op.add 7, Op.add 3, Op.add 2, Op.add 9, Op.add 4] MagicalContainer.empty
      = some ⟨[2, 3, 4, 7, 9], [2, 3, 4, 7, 9], [2, 9, 3, 7, 4], [2, 3, 7]⟩ ∧
    ([2, 9, 3, 7, 4] : List Int).length = ([2, 3, 4, 7, 9] : List Int).length :=
  ⟨by decide,
   (side_view_positions [Op.add 7, Op.add 3, Op.add 2, Op.add 9, Op.add 4]
      ⟨[2, 3, 4, 7, 9], [2, 3, 4, 7, 9], [2, 9, 3, 7, 4], [2, 3, 7]⟩ (by decide)).2.1⟩

/-- C2: in every container reached from the empty one the ascending view is
strictly increasing, lists the set, holds exactly the values added and not
subsequently removed, and has length `size()`. -/
theorem ascending_view_sorted (ops : List Op) (c : MagicalContainer)
    (h : run ops MagicalContainer.empty = some c) :
    c.elementsAsc.Pairwise (· < ·) ∧
    c.elementsAsc = c.elements ∧
    (∀ x, x ∈ c.elementsAsc ↔ present_after ops x false = true) ∧
    c.elementsAsc.length = c.size := by
  have w := run_wellFormed ops _ _ wellFormed_empty h
  obtain ⟨h1, h2, _, _⟩ := w
  refine ⟨h2 ▸ h1, h2, ?_, by rw [h2]; rfl⟩
  intro x
  rw [h2, mem_run ops _ c x wellFormed_empty h]
  rfl

/-- Witness for C2: adding 7 and 3, removing 7, adding 2. -/
theorem ascending_view_sorted_witness :
    run [Op.add 7, Op.add 3, Op.remove 7, Op.add 2] MagicalContainer.empty
      = some ⟨[2, 3], [2, 3], [2, 3], [2, 3]⟩ ∧
    ([2, 3] : List Int).Pairwise (· < ·) :=
  ⟨by decide,
   (ascending_view_sorted [Op.add 7, Op.add 3, Op.remove 7, Op.add 2]
      ⟨[2, 3], [2, 3], [2, 3], [2, 3]⟩ (by decide)).1⟩

/-- C3: in every container reached from the empty one the prime view is the
ascending view filtered by `isPrime`; adding 2, 3, 4, 5, 6, 7, 9, 11 gives the
prime view `[2, 3, 5, 7, 11]`. -/
theorem prime_view_is_filter (ops : List Op) (c : MagicalContainer)
    (h : run ops MagicalContainer.empty = some c) :
    c.elementsP = c.elementsAsc.filter (fun x => isPrime x) ∧
    (∀ x, x ∈ c.elementsP ↔ x ∈ c.elements ∧ isPrime x = true) ∧
    c.elementsP.Pairwise (· < ·) ∧
    (∃ d, run [Op.add 2, Op.add 3, Op.add 4, Op.add 5, Op.add 6, Op.add 7, Op.add 9, Op.add 11]
        MagicalContainer.empty = some d ∧ d.elementsP = [2, 3, 5, 7, 11]) := by
  obtain ⟨h1, h2, h3, _⟩ := run_wellFormed ops _ _ wellFormed_empty h
  refine ⟨by rw [h2, h3], ?_, ?_, ?_⟩
  · intro x
    rw [h3, List.mem_filter]
  · rw [h3]
    exact h1.sublist (List.filter_sublist _)
  · exact ⟨⟨[2, 3, 4, 5, 6, 7, 9, 11], [2, 3, 4, 5, 6, 7, 9, 11],
      [2, 11, 3, 9, 4, 7, 5, 6], [2, 3, 5, 7, 11]⟩, by decide, rfl⟩

/-- Witness for C3: after adding 9, 5 and 4 the prime view is `[5]`. -/
theorem prime_view_is_filter_witness :
    run [Op.add 9, Op.add 5, Op.add 4] MagicalContainer.empty
      = some ⟨[4, 5, 9], [4, 5, 9], [4, 9, 5], [5]⟩ ∧
    ([5] : List Int) = ([4, 5, 9] : List Int).filter (fun x => isPrime x) :=
  ⟨by decide,
   (prime_view_is_filter [Op.add 9, Op.add 5, Op.add 4]
      ⟨[4, 5, 9], [4, 5, 9], [4, 9, 5], [5]⟩ (by decide)).1⟩

/-- C5: adding 7, 3, 2, 9, 4 to the empty container gives size 5, ascending view
`[2,3,4,7,9]`, side-cross view `[2,9,3,7,4]` and prime view `[2,3,7]`; removing 3
then returns normally and gives `[2,4,7,9]`, `[2,9,4,7]` and `[2,7]`. -/
theorem end_to_end_scenario :
    ∃ c, run [Op.add 7, Op.add 3, Op.add 2, Op.add 9, Op.add 4] MagicalContainer.empty = some c ∧
      c.size = 5 ∧ c.elementsAsc = [2, 3, 4, 7, 9] ∧ c.elementsSide = [2, 9, 3, 7, 4] ∧
      c.elementsP = [2, 3, 7] ∧
      (removeElement c 3).2 = none ∧
      (removeElement c 3).1.elementsAsc = [2, 4, 7, 9] ∧
      (removeElement c 3).1.elementsP = [2, 7] ∧
      (removeElement c 3).1.elementsSide = [2, 9, 4, 7] :=
  ⟨⟨[2, 3, 4, 7, 9], [2, 3, 4, 7, 9], [2, 9, 3, 7, 4], [2, 3, 7]⟩,
    by decide, by decide, rfl, rfl, rfl, by decide, by decide, by decide, by decide⟩

/-- C6: on a container reached from the empty one, `removeElement(v)` throws
exactly when `v` is not in the set; what it throws is the `runtime_error`
"Error: element not found", and the set and the three vectors are then as
before the call. -/
theorem remove_fails_iff_absent (ops : List Op) (c : MagicalContainer) (v : Int)
    (h : run ops MagicalContainer.empty = some c) :
    ((removeElement c v).2 = some (Fault.runtime_error what_not_found) ↔ v ∉ c.elements) ∧
    (∀ f, (removeElement c v).2 = some f →
      f = Fault.runtime_error what_not_found ∧ (removeElement c v).1 = c ∧
      (removeElement c v).1.size = c.size) := by
  have w := run_wellFormed ops _ _ wellFormed_empty h
  by_cases hv : v ∈ c.elements
  · have hr := (removeElement_of_mem c v w hv).1
    rw [hr]
    refine ⟨⟨fun e => (by cases e), fun e => absurd hv e⟩, fun f e => (by cases e)⟩
  · rw [removeElement_of_not_mem c v hv]
    refine ⟨⟨fun _ => hv, fun _ => rfl⟩, ?_⟩
    intro f e
    simp only [Option.some.injEq] at e
    exact ⟨e.symm, rfl, rfl⟩

/-- Witness for C6: removing 5 from the container holding 2 and 3. -/
theorem remove_fails_iff_absent_witness :
    run [Op.add 3, Op.add 2] MagicalContainer.empty = some ⟨[2, 3], [2, 3], [2, 3], [2, 3]⟩ ∧
    (removeElement ⟨[2, 3], [2, 3], [2, 3], [2, 3]⟩ 5).2
      = some (Fault.runtime_error what_not_found) :=
  ⟨by decide,
   ((remove_fails_iff_absent [Op.add 3, Op.add 2] ⟨[2, 3], [2, 3], [2, 3], [2, 3]⟩ 5
      (by decide)).1).mpr (by decide)⟩

/-- C7: on a container reached from the empty one, removing a present value and
adding it again returns normally both times and restores the whole state: set,
size and the three views. -/
theorem remove_then_add_restores (ops : List Op) (c : MagicalContainer) (v : Int)
    (h : run ops MagicalContainer.empty = some c) (hv : v ∈ c.elements) :
    (removeElement c v).2 = none ∧
    addElement (removeElement c v).1 v = (c, none) := by
  have w := run_wellFormed ops _ _ wellFormed_empty h
  obtain ⟨r1, r2, r3⟩ := removeElement_of_mem c v w hv
  have hnd : c.elements.Nodup := w.1.imp (fun hab => ne_of_lt hab)
  have hnot : v ∉ (removeElement c v).1.elements := by
    rw [r3]; exact fun hm => (hnd.mem_erase_iff.mp hm).1 rfl
  obtain ⟨a1, a2, a3⟩ := addElement_of_not_mem _ v r2 hnot
  refine ⟨r1, ?_⟩
  have he : (addElement (removeElement c v).1 v).1.elements = c.elements := by
    apply eq_of_pairwise_of_mem_iff _ _ a2.1 w.1
    intro x
    rw [a3, mem_vector_insert, r3, hnd.mem_erase_iff]
    constructor
    · rintro (rfl | ⟨_, hx⟩)
      · exact hv
      · exact hx
    · intro hx
      by_cases hxv : x = v
      · exact Or.inl hxv
      · exact Or.inr ⟨hxv, hx⟩
  exact Prod.ext (wellFormed_ext _ _ a2 w he) a1

/-- Witness for C7: removing 3 from the container holding 2, 3, 7 and adding it
again. -/
theorem remove_then_add_restores_witness :
    run [Op.add 7, Op.add 3, Op.add 2] MagicalContainer.empty
      = some ⟨[2, 3, 7], [2, 3, 7], [2, 7, 3], [2, 3, 7]⟩ ∧
    addElement (removeElement ⟨[2, 3, 7], [2, 3, 7], [2, 7, 3], [2, 3, 7]⟩ 3).1 3
      = (⟨[2, 3, 7], [2, 3, 7], [2, 7, 3], [2, 3, 7]⟩, none) :=
  ⟨by decide,
   (remove_then_add_restores [Op.add 7, Op.add 3, Op.add 2]
      ⟨[2, 3, 7], [2, 3, 7], [2, 7, 3], [2, 3, 7]⟩ 3 (by decide) (by decide)).2⟩

theorem run_adds (vs : List Int) :
    ∀ c, WellFormed c → ∃ c', run (vs.map Op.add) c = some c' ∧ WellFormed c' ∧
      ∀ x, x ∈ c'.elements ↔ x ∈ vs ∨ x ∈ c.elements := by
  induction vs with
  | nil => intro c hc; exact ⟨c, rfl, hc, fun x => by simp⟩
  | cons v vs ih =>
    intro c hc
    have hnone : (addElement c v).2 = none := by
      by_cases hv : v ∈ c.elements
      · rw [addElement_of_mem c v hc hv]
      · exact (addElement_of_not_mem c v hc hv).1
    have hw : WellFormed (addElement c v).1 := by
      by_cases hv : v ∈ c.elements
      · rw [addElement_of_mem c v hc hv]; exact hc
      · exact (addElement_of_not_mem c v hc hv).2.1
    obtain ⟨c', hr, hw', hm⟩ := ih _ hw
    refine ⟨c', ?_, hw', ?_⟩
    · have hs : step c (Op.add v) = ((addElement c v).1, none) := by
        simp only [step]; exact Prod.ext rfl hnone
      simp only [List.map_cons, run, hs]
      exact hr
    · intro x
      rw [hm, mem_step_add c v x hc, List.mem_cons]
      tauto

/-- C8: every sequence of `addElement` calls on the empty container returns
normally, and `size()` is then the number of distinct values in the sequence. -/
theorem size_counts_distinct (vs : List Int) :
    ∃ c, run (vs.map Op.add) MagicalContainer.empty = some c ∧ c.size = vs.toFinset.card := by
  obtain ⟨c, hr, hw, hm⟩ := run_adds vs _ wellFormed_empty
  refine ⟨c, hr, ?_⟩
  have hnd : c.elements.Nodup := hw.1.imp (fun hab => ne_of_lt hab)
  have hf : c.elements.toFinset = vs.toFinset := by
    ext x
    simp only [List.mem_toFinset, hm]
    simp [MagicalContainer.empty]
  rw [← hf, List.toFinset_card_of_nodup hnd]
  rfl

/-- C9: on a container reached from the empty one, `addElement(v)` for a value
already present returns normally and leaves the set, the size and the three
views as they were. -/
theorem add_present_is_noop (ops : List Op) (c : MagicalContainer) (v : Int)
    (h : run ops MagicalContainer.empty = some c) (hv : v ∈ c.elements) :
    addElement c v = (c, none) :=
  addElement_of_mem c v (run_wellFormed ops _ _ wellFormed_empty h) hv

/-- Witness for C9: adding 3 to the container holding 2, 3, 7. -/
theorem add_present_is_noop_witness :
    run [Op.add 7, Op.add 3, Op.add 2] MagicalContainer.empty
      = some ⟨[2, 3, 7], [2, 3, 7], [2, 7, 3], [2, 3, 7]⟩ ∧
    addElement ⟨[2, 3, 7], [2, 3, 7], [2, 7, 3], [2, 3, 7]⟩ 3
      = (⟨[2, 3, 7], [2, 3, 7], [2, 7, 3], [2, 3, 7]⟩, none) :=
  ⟨by decide,
   add_present_is_noop [Op.add 7, Op.add 3, Op.add 2]
      ⟨[2, 3, 7], [2, 3, 7], [2, 7, 3], [2, 3, 7]⟩ 3 (by decide) (by decide)⟩

/-- C21: on a container reached from the empty one, adding an absent value and
then removing it returns normally both times and restores the whole state: set,
size and the three views. -/
theorem add_then_remove_restores (ops : List Op) (c : MagicalContainer) (v : Int)
    (h : run ops MagicalContainer.empty = some c) (hv : v ∉ c.elements) :
    (addElement c v).2 = none ∧
    removeElement (addElement c v).1 v = (c, none) ∧
    (removeElement (addElement c v).1 v).1.size = c.size := by
  have w := run_wellFormed ops _ _ wellFormed_empty h
  obtain ⟨a1, a2, a3⟩ := addElement_of_not_mem c v w hv
  have hin : v ∈ (addElement c v).1.elements := by
    rw [a3]; exact (mem_vector_insert _ _ _ _).mpr (Or.inl rfl)
  obtain ⟨r1, r2, r3⟩ := removeElement_of_mem _ v a2 hin
  have hnd : (addElement c v).1.elements.Nodup := a2.1.imp (fun hab => ne_of_lt hab)
  have he : (removeElement (addElement c v).1 v).1.elements = c.elements := by
    apply eq_of_pairwise_of_mem_iff _ _ r2.1 w.1
    intro x
    rw [r3, hnd.mem_erase_iff, a3, mem_vector_insert]
    constructor
    · rintro ⟨hxv, hx | hx⟩
      · exact absurd hx hxv
      · exact hx
    · intro hx
      exact ⟨fun e => hv (e ▸ hx), Or.inr hx⟩
  have hst : removeElement (addElement c v).1 v = (c, none) :=
    Prod.ext (wellFormed_ext _ _ r2 w he) r1
  refine ⟨a1, hst, ?_⟩
  rw [hst]

/-- Witness for C21: adding 3 to the container holding 2 and 7 and removing it
again. -/
theorem add_then_remove_restores_witness :
    run [Op.add 7, Op.add 2] MagicalContainer.empty = some ⟨[2, 7], [2, 7], [2, 7], [2, 7]⟩ ∧
    (3 : Int) ∉ (⟨[2, 7], [2, 7], [2, 7], [2, 7]⟩ : MagicalContainer).elements ∧
    (addElement ⟨[2, 7], [2, 7], [2, 7], [2, 7]⟩ 3).1
      = ⟨[2, 3, 7], [2, 3, 7], [2, 7, 3], [2, 3, 7]⟩ ∧
    removeElement (addElement ⟨[2, 7], [2, 7], [2, 7], [2, 7]⟩ 3).1 3
      = (⟨[2, 7], [2, 7], [2, 7], [2, 7]⟩, none) :=
  ⟨by decide, by decide, by decide,
   (add_then_remove_restores [Op.add 7, Op.add 2] ⟨[2, 7], [2, 7], [2, 7], [2, 7]⟩ 3
      (by decide) (by decide)).2.1⟩

end Container

/-! ## The primality test -/

section Prime

theorem isPrimeLoop_spec (num : Nat) :
    ∀ (fuel i : Nat), 1 ≤ i → num < fuel + i →
      (isPrimeLoop (num : Int) fuel (i : Int) = true ↔
        ∀ d, i ≤ d → d * d ≤ num → ¬ d ∣ num) := by
  intro fuel
  induction fuel with
  | zero =>
    intro i hi hf
    simp only [isPrimeLoop, true_iff]
    intro d hd hdd
    have : d ≤ d * d := Nat.le_mul_self d
    omega
  | succ fuel ih =>
    intro i hi hf
    unfold isPrimeLoop
    by_cases hsq : i * i ≤ num
    · have hsq' : (i : Int) * (i : Int) ≤ (num : Int) := by exact_mod_cast hsq
      rw [if_pos hsq']
      have hmod : (num : Int).tmod (i : Int) = ((num % i : Nat) : Int) :=
        (Int.ofNat_tmod num i).symm
      by_cases hdiv : num % i = 0
      · have h0 : (num : Int).tmod (i : Int) = 0 := by rw [hmod, hdiv]; rfl
        rw [if_pos h0]
        constructor
        · intro e; cases e
        · intro hall
          exact absurd (Nat.dvd_of_mod_eq_zero hdiv) (hall i (Nat.le_refl i) hsq)
      · have h0 : ¬ (num : Int).tmod (i : Int) = 0 := by
          rw [hmod]; exact_mod_cast hdiv
        rw [if_neg h0]
        have hcast : ((i : Int) + 1) = ((i + 1 : Nat) : Int) := by push_cast; rfl
        rw [hcast, ih (i + 1) (by omega) (by omega)]
        constructor
        · intro hall d hd hdd
          by_cases hdi : d = i
          · subst hdi
            exact fun hdvd => hdiv (Nat.mod_eq_zero_of_dvd hdvd)
          · exact hall d (by omega) hdd
        · intro hall d hd hdd
          exact hall d (by omega) hdd
    · have hsq' : ¬ (i : Int) * (i : Int) ≤ (num : Int) := by
        intro hle; exact hsq (by exact_mod_cast hle)
      rw [if_neg hsq']
      simp only [true_iff]
      intro d hd hdd
      have : i * i ≤ d * d := Nat.mul_le_mul hd hd
      omega

theorem isPrime_of_natCast (m : Nat) : isPrime (m : Int) = true ↔ Nat.Prime m := by
  unfold isPrime
  have hneg : ¬ (m : Int) < 0 := not_lt.mpr (Int.natCast_nonneg m)
  simp only [if_neg hneg]
  by_cases h1 : m ≤ 1
  · have h1' : (m : Int) ≤ 1 := by exact_mod_cast h1
    rw [if_pos h1']
    constructor
    · intro e; cases e
    · intro hp; exact absurd hp.two_le (by omega)
  · have h1' : ¬ (m : Int) ≤ 1 := by intro hle; exact h1 (by exact_mod_cast hle)
    rw [if_neg h1', Int.toNat_natCast]
    have hl := isPrimeLoop_spec m m 2 (by omega) (by omega)
    have hc : ((2 : Nat) : Int) = 2 := rfl
    rw [hc] at hl
    rw [hl, Nat.prime_def_le_sqrt]
    constructor
    · intro hall
      exact ⟨by omega, fun d hd hs => hall d hd (Nat.le_sqrt.mp hs)⟩
    · intro hp d hd hdd
      exact hp.2 d hd (Nat.le_sqrt.mpr hdd)

/-- C4: for every 32-bit `int` `n`, `isPrime(n)` is true exactly when the
absolute value of `n` is a prime number; the negation of `INT_MIN` wraps to
`INT_MIN`, for which the result is false.  It is false for 0, 1, -1 and true for
2 and -7. -/
theorem isPrime_iff_prime_abs (n : Int) (hlo : -2147483648 ≤ n) (hhi : n ≤ 2147483647) :
    (isPrime n = true ↔ Nat.Prime n.natAbs) ∧
    wrapInt (- (-2147483648)) = -2147483648 ∧
    isPrime 0 = false ∧ isPrime 1 = false ∧ isPrime (-1) = false ∧
    isPrime 2 = true ∧ isPrime (-7) = true := by
  refine ⟨?_, by decide, by decide, by decide, by decide, by decide, by decide⟩
  by_cases hn : n < 0
  · by_cases hmin : n = -2147483648
    · subst hmin
      have h1 : isPrime (-2147483648) = false := by decide
      have h2 : ¬ Nat.Prime (Int.natAbs (-2147483648)) := by
        have : Int.natAbs (-2147483648) = 2147483648 := rfl
        rw [this]; norm_num
      rw [h1]
      exact ⟨fun e => (by cases e), fun hp => absurd hp h2⟩
    · have hw : wrapInt (-n) = -n := by
        unfold wrapInt
        have : (-n + 2147483648) % 4294967296 = -n + 2147483648 :=
          Int.emod_eq_of_lt (by omega) (by omega)
        rw [this]; ring
      have hab : -n = (n.natAbs : Int) := by
        rw [Int.natCast_natAbs, abs_of_neg hn]
      have hstep : isPrime n = isPrime (-n) := by
        have hnn : ¬ (-n < 0) := by omega
        unfold isPrime
        simp only [if_pos hn, if_neg hnn, hw]
      rw [hstep, hab]
      exact isPrime_of_natCast _
  · have hab : n = (n.natAbs : Int) := by
      rw [Int.natCast_natAbs, abs_of_nonneg (not_lt.mp hn)]
    have hiff := isPrime_of_natCast n.natAbs
    rw [← hab] at hiff
    exact hiff

/-- Witness for C4: 97 is prime and `isPrime(-97)` is true. -/
theorem isPrime_iff_prime_abs_witness :
    (-2147483648 : Int) ≤ -97 ∧ (-97 : Int) ≤ 2147483647 ∧
    (isPrime (-97) = true ↔ Nat.Prime (Int.natAbs (-97))) :=
  ⟨by decide, by decide, (isPrime_iff_prime_abs (-97) (by decide) (by decide)).1⟩

end Prime

/-! ## Cursor operations -/

section Cursors

variable {kind : IteratorKind}

/-- C11: `operator*` at offset `i` over a view of current length `L` returns the
`i`-th entry of the view as the container holds it at the time of the call when
`i < L` and throws `out_of_range` when `L <= i`, and leaves the cursor as it was;
the same holds, with the updated view, after any `addElement` or `removeElement`
on the bound container. -/
theorem deref_reads_current_view (kind : IteratorKind) (h : Heap) (it : Iterator kind) :
    (it.deref h).1 = it ∧
    (∀ hi : it.index < ((h it.container).view kind).length,
      (it.deref h).2 = Except.ok (((h it.container).view kind).get ⟨it.index, hi⟩)) ∧
    (((h it.container).view kind).length ≤ it.index →
      (it.deref h).2 = Except.error (Fault.out_of_range what_range)) ∧
    (∀ op : Op,
      (it.deref (Function.update h it.container (step (h it.container) op).1)).1 = it ∧
      (∀ hi : it.index < (((step (h it.container) op).1).view kind).length,
        (it.deref (Function.update h it.container (step (h it.container) op).1)).2 =
          Except.ok ((((step (h it.container) op).1).view kind).get ⟨it.index, hi⟩)) ∧
      ((((step (h it.container) op).1).view kind).length ≤ it.index →
        (it.deref (Function.update h it.container (step (h it.container) op).1)).2 =
          Except.error (Fault.out_of_range what_range))) := by
  have key : ∀ (g : Heap) (c : MagicalContainer), g it.container = c →
      (it.deref g).1 = it ∧
      (∀ hi : it.index < (c.view kind).length,
        (it.deref g).2 = Except.ok ((c.view kind).get ⟨it.index, hi⟩)) ∧
      ((c.view kind).length ≤ it.index →
        (it.deref g).2 = Except.error (Fault.out_of_range what_range)) := by
    intro g c hc
    subst hc
    refine ⟨?_, ?_, ?_⟩
    · unfold Iterator.deref
      split
      · rfl
      · split <;> rfl
    · intro hi
      unfold Iterator.deref
      rw [if_neg (Nat.not_le.mpr hi)]
      simp [vector_at, List.getElem?_eq_getElem hi]
    · intro hL
      unfold Iterator.deref
      rw [if_pos hL]
  exact ⟨(key h _ rfl).1, (key h _ rfl).2.1, (key h _ rfl).2.2,
    fun op => key _ _ (Function.update_same _ _ _)⟩

/-- C12: `operator++` at offset `i` over a view of current length `L` throws
exactly when `L <= i`; a failing call leaves the cursor as it was; a successful
call leaves it bound to the same container at offset `i + 1`, and the returned
reference denotes that advanced cursor. -/
theorem inc_advances_or_fails (kind : IteratorKind) (h : Heap) (it : Iterator kind) :
    ((∃ f, (it.inc h).2 = Except.error f) ↔ ((h it.container).view kind).length ≤ it.index) ∧
    (((h it.container).view kind).length ≤ it.index →
      (it.inc h).1 = it ∧ (it.inc h).2 = Except.error (Fault.runtime_error what_range)) ∧
    (it.index < ((h it.container).view kind).length →
      (it.inc h).1.index = it.index + 1 ∧ (it.inc h).1.container = it.container ∧
      (it.inc h).2 = Except.ok (it.inc h).1) := by
  refine ⟨⟨?_, ?_⟩, ?_, ?_⟩
  · rintro ⟨f, hf⟩
    by_contra hlt
    unfold Iterator.inc at hf
    rw [if_neg hlt] at hf
    cases hf
  · intro hL
    exact ⟨_, by unfold Iterator.inc; rw [if_pos hL]⟩
  · intro hL
    unfold Iterator.inc
    rw [if_pos hL]
    exact ⟨rfl, rfl⟩
  · intro hlt
    unfold Iterator.inc
    rw [if_neg (Nat.not_le.mpr hlt)]
    exact ⟨rfl, rfl, rfl⟩

/-- C13: each of `==`, `!=`, `<`, `>` on two cursors bound to different
containers throws the `runtime_error` "Iterators are not from the same
container", whatever the offsets and whatever the containers hold. -/
theorem compare_different_containers_throws (kind : IteratorKind) (a b : Iterator kind)
    (hne : a.container ≠ b.container) :
    a.eq b = Except.error (Fault.runtime_error what_not_same) ∧
    a.ne b = Except.error (Fault.runtime_error what_not_same) ∧
    a.lt b = Except.error (Fault.runtime_error what_not_same) ∧
    a.gt b = Except.error (Fault.runtime_error what_not_same) := by
  have hne' : b.container ≠ a.container := fun e => hne e.symm
  refine ⟨?_, ?_, ?_, ?_⟩
  · unfold Iterator.eq; rw [if_pos hne']
  · unfold Iterator.ne; rw [if_pos hne']
  · unfold Iterator.lt; rw [if_pos hne']
  · unfold Iterator.gt; rw [if_pos hne']

/-- Witness for C13: two cursors at offset 0 over the containers at addresses 0
and 1. -/
theorem compare_different_containers_throws_witness :
    (⟨0, 0⟩ : AscendingIterator).container ≠ (⟨1, 0⟩ : AscendingIterator).container ∧
    (⟨0, 0⟩ : AscendingIterator).eq ⟨1, 0⟩ = Except.error (Fault.runtime_error what_not_same) ∧
    (⟨0, 0⟩ : AscendingIterator).ne ⟨1, 0⟩ = Except.error (Fault.runtime_error what_not_same) ∧
    (⟨0, 0⟩ : AscendingIterator).lt ⟨1, 0⟩ = Except.error (Fault.runtime_error what_not_same) ∧
    (⟨0, 0⟩ : AscendingIterator).gt ⟨1, 0⟩ = Except.error (Fault.runtime_error what_not_same) :=
  ⟨by decide, compare_different_containers_throws IteratorKind.Ascending ⟨0, 0⟩ ⟨1, 0⟩ (by decide)⟩

/-- C14: on two cursors bound to the same container, `==`, `!=`, `<`, `>` return
normally with the comparison of the two offsets; no container is read. -/
theorem compare_same_container_by_offset (kind : IteratorKind) (a b : Iterator kind)
    (hs : a.container = b.container) :
    a.eq b = Except.ok (decide (a.index = b.index)) ∧
    a.ne b = Except.ok (decide (a.index ≠ b.index)) ∧
    a.lt b = Except.ok (decide (a.index < b.index)) ∧
    a.gt b = Except.ok (decide (a.index > b.index)) := by
  have hs' : ¬ b.container ≠ a.container := fun e => e hs.symm
  refine ⟨?_, ?_, ?_, ?_⟩
  · unfold Iterator.eq; rw [if_neg hs']
  · unfold Iterator.ne; rw [if_neg hs']
  · unfold Iterator.lt; rw [if_neg hs']
  · unfold Iterator.gt; rw [if_neg hs']

/-- Witness for C14: offsets 2 and 9 over the container at address 4. -/
theorem compare_same_container_by_offset_witness :
    (⟨4, 2⟩ : PrimeIterator).eq ⟨4, 9⟩ = Except.ok false ∧
    (⟨4, 2⟩ : PrimeIterator).ne ⟨4, 9⟩ = Except.ok true ∧
    (⟨4, 2⟩ : PrimeIterator).lt ⟨4, 9⟩ = Except.ok true ∧
    (⟨4, 2⟩ : PrimeIterator).gt ⟨4, 9⟩ = Except.ok false :=
  compare_same_container_by_offset IteratorKind.Prime ⟨4, 2⟩ ⟨4, 9⟩ rfl

/-- C15: move assignment between two cursors changes a container.  With a cursor
`a` bound to the container at address 0, which holds 1 and 2, and a distinct
cursor `b` bound to the empty container at address 1, `a = std::move(b)` leaves the
container at address 0 empty, whatever the moved-from container is left holding:
`container = move(other.container)` assigns through the reference member. -/
theorem move_assign_overwrites_container (residue : MagicalContainer) :
    ((⟨0, 0⟩ : AscendingIterator).move_assign heap_one_two residue ⟨1, 0⟩ false).1 0
        = MagicalContainer.empty ∧
    heap_one_two 0 = ⟨[1, 2], [1, 2], [1, 2], [2]⟩ ∧
    ((⟨0, 0⟩ : AscendingIterator).move_assign heap_one_two residue ⟨1, 0⟩ false).1 0
        ≠ heap_one_two 0 := by
  have h1 : ((⟨0, 0⟩ : AscendingIterator).move_assign heap_one_two residue ⟨1, 0⟩ false).1 0
      = MagicalContainer.empty := by
    simp [Iterator.move_assign, Heap.move_assign, Function.update, heap_one_two]
  refine ⟨h1, rfl, ?_⟩
  rw [h1]
  decide

/-- Counterexample for C16: copy assignment does not always succeed.  Assigning
a cursor bound to the container at address 1 to a cursor bound to the container
at address 0 throws and leaves the target bound to address 0 at its own
offset. -/
theorem copy_assign_not_always_ok :
    ¬ ∀ (a b : AscendingIterator) (same_object : Bool),
      (a.copy_assign b same_object).2 = none ∧
      (a.copy_assign b same_object).1.container = b.container ∧
      (a.copy_assign b same_object).1.index = b.index := by
  intro hall
  have h := (hall ⟨0, 0⟩ ⟨1, 5⟩ false).1
  revert h
  decide

/-- C16 (amended): copy construction yields a cursor bound to the container of
the source at the offset of the source.  Copy assignment `a = b` between cursors
bound to the same container returns normally and leaves `a` bound to that
container at the offset of `b`; between cursors bound to different containers it
throws the `runtime_error` "Iterators are not from the same container" and leaves
`a` as it was.  (`same_object` can only be true when `a` and `b` are one
object.) -/
theorem copy_preserves_container_and_offset (kind : IteratorKind) (a b : Iterator kind)
    (same_object : Bool) (halias : same_object = true → a = b) :
    (Iterator.copy_ctor b).container = b.container ∧
    (Iterator.copy_ctor b).index = b.index ∧
    (a.container = b.container →
      (a.copy_assign b same_object).2 = none ∧
      (a.copy_assign b same_object).1.container = b.container ∧
      (a.copy_assign b same_object).1.index = b.index) ∧
    (a.container ≠ b.container →
      (a.copy_assign b same_object).2 = some (Fault.runtime_error what_not_same) ∧
      (a.copy_assign b same_object).1 = a) := by
  refine ⟨rfl, rfl, ?_, ?_⟩
  · intro hs
    cases same_object with
    | true =>
      have hab := halias rfl
      subst hab
      simp [Iterator.copy_assign]
    | false =>
      have hs' : ¬ b.container ≠ a.container := fun e => e hs.symm
      unfold Iterator.copy_assign
      rw [if_pos (by rfl), if_neg hs']
      exact ⟨rfl, hs, rfl⟩
  · intro hne
    cases same_object with
    | true =>
      have hab := halias rfl
      exact absurd (congrArg Iterator.container hab) hne
    | false =>
      have hne' : b.container ≠ a.container := fun e => hne e.symm
      unfold Iterator.copy_assign
      rw [if_pos (by rfl), if_pos hne']
      exact ⟨rfl, rfl⟩

/-- Witness for C16 (amended): two distinct cursors over the container at
address 3, at offsets 1 and 4. -/
theorem copy_preserves_container_and_offset_witness :
    (Iterator.copy_ctor (⟨3, 4⟩ : SideCrossIterator)).container = 3 ∧
    (Iterator.copy_ctor (⟨3, 4⟩ : SideCrossIterator)).index = 4 ∧
    ((3 : Nat) = 3 →
      ((⟨3, 1⟩ : SideCrossIterator).copy_assign ⟨3, 4⟩ false).2 = none ∧
      ((⟨3, 1⟩ : SideCrossIterator).copy_assign ⟨3, 4⟩ false).1.container = 3 ∧
      ((⟨3, 1⟩ : SideCrossIterator).copy_assign ⟨3, 4⟩ false).1.index = 4) ∧
    ((3 : Nat) ≠ 3 →
      ((⟨3, 1⟩ : SideCrossIterator).copy_assign ⟨3, 4⟩ false).2
        = some (Fault.runtime_error what_not_same) ∧
      ((⟨3, 1⟩ : SideCrossIterator).copy_assign ⟨3, 4⟩ false).1 = ⟨3, 1⟩) :=
  copy_preserves_container_and_offset IteratorKind.SideCross ⟨3, 1⟩ ⟨3, 4⟩ false
    (fun e => Bool.noConfusion e)

/-- Counterexample for C17: on the empty container a cursor at offset 0 is past
every entry of its view; `operator++` throws a `runtime_error` there and
`operator*` an `out_of_range`, so the two calls do not throw one common
exception. -/
theorem inc_and_deref_faults_differ :
    ¬ ∀ (h : Heap) (it : AscendingIterator),
      ((h it.container).view IteratorKind.Ascending).length ≤ it.index →
      ∃ what, (it.inc h).2 = Except.error (Fault.out_of_range what) ∧
        (it.deref h).2 = Except.error (Fault.out_of_range what) := by
  intro hall
  obtain ⟨what, h1, _⟩ := hall (fun _ => MagicalContainer.empty) ⟨0, 0⟩ (Nat.le_refl 0)
  simp [Iterator.inc, MagicalContainer.view, MagicalContainer.empty] at h1

/-- C17 (amended): for a cursor at or past the end of its view, `operator*`
throws `std::out_of_range` and `operator++` throws `std::runtime_error`, two
different exception classes, both with the text "Iterator out of range". -/
theorem past_end_faults (kind : IteratorKind) (h : Heap) (it : Iterator kind)
    (hL : ((h it.container).view kind).length ≤ it.index) :
    (it.deref h).2 = Except.error (Fault.out_of_range what_range) ∧
    (it.inc h).2 = Except.error (Fault.runtime_error what_range) ∧
    Fault.out_of_range what_range ≠ Fault.runtime_error what_range := by
  refine ⟨?_, ?_, ?_⟩
  · unfold Iterator.deref; rw [if_pos hL]
  · unfold Iterator.inc; rw [if_pos hL]
  · intro e; cases e

/-- Witness for C17 (amended): a prime cursor at offset 1 over the container
holding 1 and 2, whose prime view has length 1. -/
theorem past_end_faults_witness :
    ((⟨0, 1⟩ : PrimeIterator).deref heap_one_two).2
      = Except.error (Fault.out_of_range what_range) ∧
    ((⟨0, 1⟩ : PrimeIterator).inc heap_one_two).2
      = Except.error (Fault.runtime_error what_range) ∧
    Fault.out_of_range what_range ≠ Fault.runtime_error what_range :=
  past_end_faults IteratorKind.Prime heap_one_two ⟨0, 1⟩ (by decide)

/-- C20: `end()` returns a cursor bound to the container of the receiver at the
current length of the bound view.  If an `addElement` then lengthens that view,
the cursor obtained before (a value the call does not touch) compares `<` and
not `==` to the cursor a new call of `end()` returns, and dereferencing it
returns the entry of the new view at the old length. -/
theorem end_is_snapshot (kind : IteratorKind) (h : Heap) (it : Iterator kind) (v : Int)
    (hgrow : ((h it.container).view kind).length
      < (((addElement (h it.container) v).1).view kind).length) :
    (it.end_ h).container = it.container ∧
    (it.end_ h).index = ((h it.container).view kind).length ∧
    (it.end_ h).lt (it.end_ (Function.update h it.container (addElement (h it.container) v).1))
      = Except.ok true ∧
    (it.end_ h).eq (it.end_ (Function.update h it.container (addElement (h it.container) v).1))
      = Except.ok false ∧
    (it.end_ h).ne (it.end_ (Function.update h it.container (addElement (h it.container) v).1))
      = Except.ok true ∧
    (∃ x, (((addElement (h it.container) v).1).view kind)[((h it.container).view kind).length]?
        = some x ∧
      ((it.end_ h).deref (Function.update h it.container (addElement (h it.container) v).1)).2
        = Except.ok x) := by
  refine ⟨rfl, rfl, ?_, ?_, ?_, ?_⟩
  · simp [Iterator.lt, Iterator.end_, Iterator.ctor_at, hgrow]
  · simp [Iterator.eq, Iterator.end_, Iterator.ctor_at, Nat.ne_of_lt hgrow]
  · simp [Iterator.ne, Iterator.end_, Iterator.ctor_at, Nat.ne_of_lt hgrow]
  · refine ⟨_, List.getElem?_eq_getElem hgrow, ?_⟩
    unfold Iterator.deref
    simp only [Iterator.end_, Iterator.ctor_at, Function.update_same]
    rw [if_neg (Nat.not_le.mpr hgrow)]
    simp [vector_at, List.getElem?_eq_getElem hgrow]

/-- Witness for C20: the ascending cursor over the container holding 1 and 2,
before and after adding 5: the cursor obtained first sits at offset 2, below the
one obtained afterwards. -/
theorem end_is_snapshot_witness :
    ((heap_one_two 0).view IteratorKind.Ascending).length
      < (((addElement (heap_one_two 0) 5).1).view IteratorKind.Ascending).length ∧
    ((⟨0, 0⟩ : AscendingIterator).end_ heap_one_two).index = 2 ∧
    ((⟨0, 0⟩ : AscendingIterator).end_ heap_one_two).lt
      ((⟨0, 0⟩ : AscendingIterator).end_
        (Function.update heap_one_two 0 (addElement (heap_one_two 0) 5).1)) = Except.ok true :=
  ⟨by decide,
   (end_is_snapshot IteratorKind.Ascending heap_one_two ⟨0, 0⟩ 5 (by decide)).2.1,
   (end_is_snapshot IteratorKind.Ascending heap_one_two ⟨0, 0⟩ 5 (by decide)).2.2.1⟩

theorem inc_times_reaches (kind : IteratorKind) (h : Heap) (a : Nat) :
    ∀ (k j : Nat), j + k = ((h a).view kind).length →
      Iterator.inc_times h k (⟨a, j⟩ : Iterator kind)
        = (⟨a, ((h a).view kind).length⟩, none) := by
  intro k
  induction k with
  | zero =>
    intro j hj
    simp only [Nat.add_zero] at hj
    rw [Iterator.inc_times, hj]
  | succ k ih =>
    intro j hj
    have hlt : ¬ j ≥ ((h a).view kind).length := by omega
    have hinc : Iterator.inc h (⟨a, j⟩ : Iterator kind)
        = (⟨a, j + 1⟩, Except.ok ⟨a, j + 1⟩) := by
      unfold Iterator.inc
      rw [if_neg hlt]
    rw [Iterator.inc_times, hinc]
    exact ih (j + 1) (by omega)

theorem inc_times_overrun (kind : IteratorKind) (h : Heap) (a : Nat) :
    ∀ (k j : Nat), j + k = ((h a).view kind).length →
      Iterator.inc_times h (k + 1) (⟨a, j⟩ : Iterator kind)
        = (⟨a, ((h a).view kind).length⟩, some (Fault.runtime_error what_range)) := by
  intro k
  induction k with
  | zero =>
    intro j hj
    simp only [Nat.add_zero] at hj
    have hinc : Iterator.inc h (⟨a, j⟩ : Iterator kind)
        = (⟨a, j⟩, Except.error (Fault.runtime_error what_range)) := by
      unfold Iterator.inc
      rw [if_pos (Nat.le_of_eq hj.symm)]
    rw [Iterator.inc_times, hinc, hj]
  | succ k ih =>
    intro j hj
    have hlt : ¬ j ≥ ((h a).view kind).length := by omega
    have hinc : Iterator.inc h (⟨a, j⟩ : Iterator kind)
        = (⟨a, j + 1⟩, Except.ok ⟨a, j + 1⟩) := by
      unfold Iterator.inc
      rw [if_neg hlt]
    rw [Iterator.inc_times, hinc]
    exact ih (j + 1) (by omega)

/-- Counterexample for C10: the advance past the last entry does not throw the
`out_of_range` that dereferencing throws; on the empty container, advancing the
cursor returned by `end()` throws something else. -/
theorem inc_past_end_is_not_out_of_range :
    ¬ ∀ (h : Heap) (it : AscendingIterator),
      ((it.end_ h).inc h).2 = Except.error (Fault.out_of_range what_range) := by
  intro hall
  have h1 := hall (fun _ => MagicalContainer.empty) ⟨0, 0⟩
  simp [Iterator.inc, Iterator.end_, Iterator.ctor_at, MagicalContainer.view,
    MagicalContainer.empty] at h1

/-- C10 (amended): over a container reached from the empty one, with `n` the
current length of the bound view (which is `size()` for the ascending and the
side-cross cursor), `n` calls of `operator++` from `begin()` all return normally
and end at a cursor that compares equal to `end()`; one more call throws the
`runtime_error` "Iterator out of range" and leaves the cursor in place, and
`operator*` on `end()` throws `out_of_range`. -/
theorem begin_reaches_end (kind : IteratorKind) (ops : List Op) (h : Heap)
    (it : Iterator kind) (hreach : run ops MagicalContainer.empty = some (h it.container)) :
    (kind ≠ IteratorKind.Prime → ((h it.container).view kind).length = (h it.container).size) ∧
    (Iterator.inc_times h ((h it.container).view kind).length it.begin_).2 = none ∧
    ((Iterator.inc_times h ((h it.container).view kind).length it.begin_).1).eq (it.end_ h)
      = Except.ok true ∧
    (Iterator.inc_times h (((h it.container).view kind).length + 1) it.begin_)
      = (it.end_ h, some (Fault.runtime_error what_range)) ∧
    ((it.end_ h).deref h).2 = Except.error (Fault.out_of_range what_range) := by
  have hn := inc_times_reaches kind h it.container ((h it.container).view kind).length 0
    (Nat.zero_add _)
  have hb : (it.begin_ : Iterator kind) = ⟨it.container, 0⟩ := rfl
  have he : (it.end_ h : Iterator kind) = ⟨it.container, ((h it.container).view kind).length⟩ :=
    rfl
  have hfail : Iterator.inc h (it.end_ h)
      = (it.end_ h, Except.error (Fault.runtime_error what_range)) := by
    unfold Iterator.inc
    rw [he, if_pos (Nat.le_refl _)]
  refine ⟨?_, ?_, ?_, ?_, ?_⟩
  · intro hk
    obtain ⟨_, w2, _, w4⟩ := run_wellFormed ops _ _ wellFormed_empty hreach
    cases kind with
    | Ascending => show (h it.container).elementsAsc.length = _; rw [w2]; rfl
    | SideCross =>
      show (h it.container).elementsSide.length = _
      rw [w4, sideCrossSpec_length]; rfl
    | Prime => exact absurd rfl hk
  · rw [hb, hn]
  · rw [hb, hn, ← he]
    unfold Iterator.eq
    rw [if_neg (fun e => e rfl)]
    simp
  · rw [hb, he]
    exact inc_times_overrun kind h it.container _ 0 (Nat.zero_add _)
  · unfold Iterator.deref
    rw [he, if_pos (Nat.le_refl _)]

/-- Witness for C10 (amended): the side-cross cursor over the container holding
7, 3 and 2. -/
theorem begin_reaches_end_witness :
    run [Op.add 7, Op.add 3, Op.add 2] MagicalContainer.empty
      = some ⟨[2, 3, 7], [2, 3, 7], [2, 7, 3], [2, 3, 7]⟩ ∧
    Iterator.inc_times (fun _ => ⟨[2, 3, 7], [2, 3, 7], [2, 7, 3], [2, 3, 7]⟩) (3 + 1)
        (Iterator.begin_ (⟨0, 1⟩ : SideCrossIterator))
      = (⟨0, 3⟩, some (Fault.runtime_error what_range)) :=
  ⟨by decide,
   (begin_reaches_end IteratorKind.SideCross [Op.add 7, Op.add 3, Op.add 2]
      (fun _ => ⟨[2, 3, 7], [2, 3, 7], [2, 7, 3], [2, 3, 7]⟩) ⟨0, 1⟩ (by decide)).2.2.2.1⟩

end Cursors

/-! ## Safety of the rebuild loop -/

section Loop

theorem vector_at_of_lt (asc : List Int) (i : Nat) (hi : i < asc.length) :
    ∃ x, vector_at asc i = Except.ok x := by
  refine ⟨asc.get ⟨i, hi⟩, ?_⟩
  simp [vector_at, List.getElem?_eq_getElem hi]

theorem sideLoopTrace_run (asc : List Int) (hmax : asc.length ≤ SIZE_MAX) :
    ∀ (fuel start end_ : Nat) (side : List Int) (reads : List Nat) (iterations : Nat)
      (w : Bool),
      end_ < asc.length → iterations_left start end_ ≤ fuel →
      ∃ final, sideLoopTrace asc fuel ⟨start, end_, side, reads, iterations, w⟩
          = some (final, none) ∧
        final.iterations = iterations + iterations_left start end_ ∧
        final.end_wrapped = w ∧
        (∀ i ∈ final.reads, i ∈ reads ∨ i < asc.length) ∧
        sideLoop asc end_ start side = (final.side, none) := by
  intro fuel
  induction fuel with
  | zero =>
    intro start end_ side reads iterations w _ hr
    have hc : ¬ (start ≤ end_ ∧ end_ ≠ 0) := by
      intro hc
      simp only [iterations_left, if_pos hc] at hr
      omega
    refine ⟨⟨start, end_, side, reads, iterations, w⟩, ?_, ?_, rfl, ?_, ?_⟩
    · simp only [sideLoopTrace, if_neg hc]
    · simp only [iterations_left, if_neg hc, Nat.add_zero]
    · intro i hi; exact Or.inl hi
    · cases end_ with
      | zero => rfl
      | succ e => exact sideLoop_exit _ _ _ _ (by omega)
  | succ fuel ih =>
    intro start end_ side reads iterations w he hr
    by_cases hc : start ≤ end_ ∧ end_ ≠ 0
    · obtain ⟨hse, he0⟩ := hc
      obtain ⟨e, rfl⟩ : ∃ e, end_ = e + 1 := ⟨end_ - 1, by omega⟩
      obtain ⟨x, hx⟩ := vector_at_of_lt asc start (by omega)
      obtain ⟨y, hy⟩ := vector_at_of_lt asc (e + 1) he
      have hsucc : size_succ start = start + 1 := by
        unfold size_succ; rw [if_neg (by omega)]
      have hpred : size_pred (e + 1) = e := by
        unfold size_pred; rw [if_neg (by omega)]; rfl
      have hw : (w || decide (e + 1 = 0)) = w := by simp
      have hleft : iterations_left start (e + 1) = iterations_left (start + 1) e + 1 := by
        unfold iterations_left
        rw [if_pos ⟨hse, he0⟩]
        by_cases h2 : start + 1 ≤ e ∧ e ≠ 0
        · rw [if_pos h2]; omega
        · rw [if_neg h2]
          have : e + 1 - start ≤ 1 := by
            by_contra hgt
            exact h2 ⟨by omega, by omega⟩
          omega
      by_cases hne : start ≠ e + 1
      · obtain ⟨final, f1, f2, f3, f4, f5⟩ :=
          ih (start + 1) e (side ++ [x] ++ [y]) (reads ++ [start] ++ [e + 1])
            (iterations + 1) w (by omega) (by omega)
        refine ⟨final, ?_, ?_, f3, ?_, ?_⟩
        · simp only [sideLoopTrace, if_pos (And.intro hse he0), loopBody, hx, hy, if_pos hne,
            hsucc, hpred, hw]
          exact f1
        · rw [f2, hleft]; omega
        · intro i hi
          rcases f4 i hi with hm | hlt
          · simp only [List.mem_append, List.mem_singleton] at hm
            rcases hm with (hm | rfl) | rfl
            · exact Or.inl hm
            · exact Or.inr (by omega)
            · exact Or.inr he
          · exact Or.inr hlt
        · unfold sideLoop
          rw [if_pos hse, hx]
          simp only
          rw [if_pos hne, hy]
          exact f5
      · have hse' : start = e + 1 := not_not.mp hne
        obtain ⟨final, f1, f2, f3, f4, f5⟩ :=
          ih (start + 1) e (side ++ [x]) (reads ++ [start]) (iterations + 1) w
            (by omega) (by omega)
        refine ⟨final, ?_, ?_, f3, ?_, ?_⟩
        · simp only [sideLoopTrace, if_pos (And.intro hse he0), loopBody, hx, if_neg hne,
            hsucc, hpred, hw]
          exact f1
        · rw [f2, hleft]; omega
        · intro i hi
          rcases f4 i hi with hm | hlt
          · simp only [List.mem_append, List.mem_singleton] at hm
            rcases hm with hm | rfl
            · exact Or.inl hm
            · exact Or.inr (by omega)
          · exact Or.inr hlt
        · unfold sideLoop
          rw [if_pos hse, hx]
          simp only
          rw [if_neg hne]
          exact f5
    · refine ⟨⟨start, end_, side, reads, iterations, w⟩, ?_, ?_, rfl, ?_, ?_⟩
      · simp only [sideLoopTrace, if_neg hc]
      · simp only [iterations_left, if_neg hc, Nat.add_zero]
      · intro i hi; exact Or.inl hi
      · cases end_ with
        | zero => rfl
        | succ e => exact sideLoop_exit _ _ _ _ (by omega)

/-- C22: for every ascending vector of length `n` with `1 <= n` (a `size_t`),
the rebuild loop that `addElement` and `removeElement` enter with `start = 0` and
`end = n - 1` exits within `ceil(n/2)` iterations without an exception; every
index it passed to `elementsAsc.at()` is below `n`, `end--` was never executed
with `end == 0`, and the side vector it leaves is the one the two functions
store. -/
theorem rebuild_loop_safe (asc : List Int) (hn : 1 ≤ asc.length)
    (hmax : asc.length ≤ SIZE_MAX) :
    ∃ final, sideLoopTrace asc ((asc.length + 1) / 2) (loopEntry asc) = some (final, none) ∧
      (∀ i ∈ final.reads, i < asc.length) ∧
      final.end_wrapped = false ∧
      final.iterations ≤ (asc.length + 1) / 2 ∧
      sideLoop asc (size_pred asc.length) 0 [] = (final.side, none) := by
  have hp : size_pred asc.length = asc.length - 1 := by
    unfold size_pred; rw [if_neg (by omega)]
  have hleft : iterations_left 0 (asc.length - 1) ≤ (asc.length + 1) / 2 := by
    unfold iterations_left
    split
    · omega
    · omega
  obtain ⟨final, f1, f2, f3, f4, f5⟩ :=
    sideLoopTrace_run asc hmax ((asc.length + 1) / 2) 0 (asc.length - 1) [] [] 0 false
      (by omega) hleft
  refine ⟨final, ?_, ?_, f3, ?_, ?_⟩
  · rw [loopEntry, hp]; exact f1
  · intro i hi
    rcases f4 i hi with hm | hlt
    · cases hm
    · exact hlt
  · rw [f2]; omega
  · rw [hp]; exact f5

/-- Witness for C22: the ascending vector `[2, 3, 4, 7, 9]`; the loop reads the
indices 0, 4, 1, 3, 2 in three iterations. -/
theorem rebuild_loop_safe_witness :
    1 ≤ ([2, 3, 4, 7, 9] : List Int).length ∧
    ([2, 3, 4, 7, 9] : List Int).length ≤ SIZE_MAX ∧
    sideLoopTrace [2, 3, 4, 7, 9] 3 (loopEntry [2, 3, 4, 7, 9])
      = some (⟨3, 1, [2, 9, 3, 7, 4], [0, 4, 1, 3, 2], 3, false⟩, none) ∧
    ∃ final, sideLoopTrace [2, 3, 4, 7, 9] (((([2, 3, 4, 7, 9] : List Int)).length + 1) / 2)
        (loopEntry [2, 3, 4, 7, 9]) = some (final, none) ∧
      (∀ i ∈ final.reads, i < ([2, 3, 4, 7, 9] : List Int).length) ∧
      final.end_wrapped = false ∧
      final.iterations ≤ (([2, 3, 4, 7, 9] : List Int).length + 1) / 2 ∧
      sideLoop [2, 3, 4, 7, 9] (size_pred ([2, 3, 4, 7, 9] : List Int).length) 0 []
        = (final.side, none) :=
  ⟨by decide, by decide, by decide, rebuild_loop_safe [2, 3, 4, 7, 9] (by decide) (by decide)⟩

end Loop

end ariel
